import Mathlib

/-!
Verification of the MCP connector servers (`math_server.py`, `scw_server.py`)
against their natural-language specification.

The Python code is shallowly embedded: JSON/Python values become the
inductive `JVal`; Python floats are modelled as exact rationals (every value
appearing in the dispatch scenarios is a small decimal, where float
arithmetic is exact); raising an exception becomes returning `Except.error`;
the outbound HTTP layer (`requests`) becomes an explicit oracle parameter
`Http` mapping a request to either a response JSON body or a
`RequestException` message.
-/

namespace MCP

/-- JSON-like Python values: the argument and payload universe of the two
servers (`dict` arguments arrive as parsed JSON). Python distinguishes
`int` from `float`; so does this model. -/
inductive JVal where
  | jnull : JVal
  | jbool : Bool → JVal
  | jint : ℤ → JVal
  | jfloat : ℚ → JVal
  | jstr : String → JVal
  | jarr : List JVal → JVal
  | jobj : List (String × JVal) → JVal
deriving Repr

/-- Tool-call arguments: a Python `dict` with string keys, modelled as an
association list with unique keys; lookup takes the first occurrence. -/
abbrev Args := List (String × JVal)

/-- `arguments[k]` / `k in arguments`: first-match association lookup. -/
def Args.get? (arguments : Args) (k : String) : Option JVal :=
  match arguments with
  | [] => none
  | (k', v) :: rest => if k' = k then some v else Args.get? rest k

/-- Decimal digit character for `n < 10`. -/
def natDigitChar (n : ℕ) : Char := Char.ofNat (48 + n)

/-- Decimal digits of a natural number, most significant first
(Python's `str` on a nonnegative `int`). -/
def natDigits (n : ℕ) : List Char :=
  if _h : n < 10 then [natDigitChar n]
  else natDigits (n / 10) ++ [natDigitChar (n % 10)]
decreasing_by exact Nat.div_lt_self (by omega) (by omega)

/-- Python `str` on an `int` (sign then digits). -/
def intChars (n : ℤ) : List Char :=
  (if n < 0 then ['-'] else []) ++ natDigits n.natAbs

/-- Largest exponent `e` with `p ^ e ∣ n`, together with `n / p ^ e`
(for `1 < p`, `0 < n`). -/
def stripFactor (p : ℕ) (n : ℕ) : ℕ × ℕ :=
  if h : 1 < p ∧ 0 < n ∧ n % p = 0 then
    let r := stripFactor p (n / p)
    (r.1 + 1, r.2)
  else (0, n)
decreasing_by exact Nat.div_lt_self h.2.1 h.1

/-- Whether a reduced denominator divides a power of 10, i.e. the rational
is exactly a finite decimal — true of every value reachable in the claims
(Python floats printed by `repr` in their short decimal form). -/
def decimalDen (d : ℕ) : Bool := (stripFactor 5 (stripFactor 2 d).2).2 = 1

/-- Number of decimal places needed for denominator `d` (valuation at 2
max valuation at 5). -/
def decScale (d : ℕ) : ℕ := max (stripFactor 2 d).1 (stripFactor 5 d).1

/-- Left-pad a digit list with zeros to length `len`. -/
def padZeros (l : List Char) (len : ℕ) : List Char :=
  List.replicate (len - l.length) '0' ++ l

/-- Insert a decimal point `k` places from the right. -/
def withPoint (l : List Char) (k : ℕ) : List Char :=
  l.take (l.length - k) ++ '.' :: l.drop (l.length - k)

/-- The digits of `m / 10 ^ k` written in positional decimal form with `k`
places (`.0` for integral values). -/
def decBody (m k : ℕ) : List Char :=
  if k = 0 then natDigits m ++ ['.', '0']
  else withPoint (padZeros (natDigits m) (k + 1)) k

/-- Python `repr`/`str` of a float, modelled on exact decimals: the shortest
exact decimal expansion, with a trailing `.0` on integral values — e.g.
`8.0`, `-0.5`, `2.75`. (Python switches to scientific notation outside
`[1e-4, 1e16)` and on non-decimal rationals no Python float exists; neither
is reachable in the specified scenarios.) -/
def pyRepr (q : ℚ) : String :=
  let k := decScale q.den
  let m := q.num.natAbs * (10 ^ k / q.den)
  String.mk ((if q.num < 0 then ['-'] else []) ++ decBody m k)

/-- Numeric value of a digit character. -/
def digitVal (c : Char) : ℕ := c.toNat - 48

/-- Value of a most-significant-first digit list. -/
def digitsToNat (ds : List Char) : ℕ :=
  ds.foldl (fun a c => a * 10 + digitVal c) 0

/-- Python `float(s)` on a string: strip spaces, optional sign, digits with
optional fractional part. (Exponents, `inf`/`nan` and underscores are not
modelled; no claim reaches them.) -/
def pyFloatOfStr (s : String) : Except String ℚ :=
  let err : Except String ℚ :=
    .error ("could not convert string to float: '" ++ s ++ "'")
  let l := s.toList.dropWhile (· = ' ')
  let signAndRest : Bool × List Char :=
    match l with
    | '-' :: t => (true, t)
    | '+' :: t => (false, t)
    | _ => (false, l)
  let ip := signAndRest.2.takeWhile Char.isDigit
  let rest := signAndRest.2.dropWhile Char.isDigit
  let mag : Except String ℚ :=
    match rest with
    | '.' :: t =>
      let fp := t.takeWhile Char.isDigit
      let t2 := t.dropWhile Char.isDigit
      if (ip.isEmpty && fp.isEmpty) || !(t2.dropWhile (· = ' ')).isEmpty then err
      else .ok ((digitsToNat ip : ℚ) + (digitsToNat fp : ℚ) / (10 : ℚ) ^ fp.length)
    | r =>
      if ip.isEmpty || !(r.dropWhile (· = ' ')).isEmpty then err
      else .ok (digitsToNat ip : ℚ)
  mag.map (fun v => if signAndRest.1 then -v else v)

/-- Python `float(x)` on a JSON value (`bool` is an `int` subclass in
Python, so `float(True) = 1.0`). -/
def pyFloat : JVal → Except String ℚ
  | .jint n => .ok (n : ℚ)
  | .jfloat q => .ok q
  | .jbool b => .ok (if b then 1 else 0)
  | .jstr s => pyFloatOfStr s
  | .jnull => .error "float() argument must be a string or a real number, not 'NoneType'"
  | .jarr _ => .error "float() argument must be a string or a real number, not 'list'"
  | .jobj _ => .error "float() argument must be a string or a real number, not 'dict'"

/-! ### json.dumps(·, indent=2) -/

/-- Lowercase hexadecimal digit. -/
def hexDigit (n : ℕ) : Char :=
  if n < 10 then Char.ofNat (48 + n) else Char.ofNat (87 + n)

/-- `\uXXXX` escape; code points beyond the basic plane become a surrogate
pair, as CPython's `ensure_ascii` emits. -/
def uEscape (n : ℕ) : List Char :=
  if n < 65536 then
    ['\\', 'u', hexDigit (n / 4096 % 16), hexDigit (n / 256 % 16),
     hexDigit (n / 16 % 16), hexDigit (n % 16)]
  else
    let m := n - 65536
    ['\\', 'u', hexDigit ((55296 + m / 1024) / 4096 % 16), hexDigit ((55296 + m / 1024) / 256 % 16),
     hexDigit ((55296 + m / 1024) / 16 % 16), hexDigit ((55296 + m / 1024) % 16)] ++
    ['\\', 'u', hexDigit ((56320 + m % 1024) / 4096 % 16), hexDigit ((56320 + m % 1024) / 256 % 16),
     hexDigit ((56320 + m % 1024) / 16 % 16), hexDigit ((56320 + m % 1024) % 16)]

/-- `json.dumps` escaping of one character (default `ensure_ascii=True`). -/
def escChar (c : Char) : List Char :=
  if c = '"' then ['\\', '"']
  else if c = '\\' then ['\\', '\\']
  else if c = '\n' then ['\\', 'n']
  else if c = '\t' then ['\\', 't']
  else if c = '\r' then ['\\', 'r']
  else if c = '\x08' then ['\\', 'b']
  else if c = '\x0c' then ['\\', 'f']
  else if c.toNat < 32 || 126 < c.toNat then uEscape c.toNat
  else [c]

/-- A JSON string literal: quote, escaped characters, quote. -/
def jstrChars (s : String) : List Char :=
  '"' :: (s.toList.flatMap escChar) ++ ['"']

/-- `ind` spaces of indentation. -/
def indentChars (ind : ℕ) : List Char := List.replicate ind ' '

mutual

/-- `json.dumps(v, indent=2)` at current indentation `ind`: CPython's
pretty layout (item separator `,\n`, key separator `: `, empty containers
inline). -/
def dumpsVal (ind : ℕ) : JVal → List Char
  | .jnull => ['n', 'u', 'l', 'l']
  | .jbool b => if b then ['t', 'r', 'u', 'e'] else ['f', 'a', 'l', 's', 'e']
  | .jint n => intChars n
  | .jfloat q => (pyRepr q).toList
  | .jstr s => jstrChars s
  | .jarr [] => ['[', ']']
  | .jarr (x :: xs) =>
    '[' :: '\n' :: (dumpsItems (ind + 2) x xs ++ '\n' :: (indentChars ind ++ [']']))
  | .jobj [] => ['\x7b', '\x7d']
  | .jobj (f :: fs) =>
    '\x7b' :: '\n' :: (dumpsFields (ind + 2) f fs ++ '\n' :: (indentChars ind ++ ['\x7d']))
termination_by v => sizeOf v

/-- The comma-newline separated items of a nonempty JSON array. -/
def dumpsItems (ind : ℕ) (x : JVal) (xs : List JVal) : List Char :=
  indentChars ind ++ dumpsVal ind x ++
    (match xs with
     | [] => []
     | y :: ys => ',' :: '\n' :: dumpsItems ind y ys)
termination_by 1 + sizeOf x + sizeOf xs

/-- The comma-newline separated fields of a nonempty JSON object. -/
def dumpsFields (ind : ℕ) (f : String × JVal) (fs : List (String × JVal)) : List Char :=
  indentChars ind ++ jstrChars f.1 ++ ':' :: ' ' :: dumpsVal ind f.2 ++
    (match fs with
     | [] => []
     | g :: gs => ',' :: '\n' :: dumpsFields ind g gs)
termination_by 1 + sizeOf f + sizeOf fs
decreasing_by
  all_goals obtain ⟨k, v⟩ := f
  all_goals simp
  all_goals omega

end

/-- `json.dumps(v, indent=2)` as a string. -/
def jsonDumps (v : JVal) : String := String.mk (dumpsVal 0 v)

/-! ### math_server.py -/

/-- An MCP `TextContent` content part. -/
structure TextContent where
  type : String
  text : String
deriving Repr, DecidableEq

/-- `MathTools.ADD`. -/
def MathTools.ADD : String := "add"

/-- `MathTools.SUBTRACT`. -/
def MathTools.SUBTRACT : String := "subtract"

/-- The `MathResult` pydantic model. -/
structure MathResult where
  operation : String
  result : ℚ
  details : String
deriving Repr, DecidableEq

/-- `MathResult.model_dump()`: the pydantic model as a JSON object, in field
declaration order. -/
def MathResult.model_dump (m : MathResult) : JVal :=
  .jobj [("operation", .jstr m.operation), ("result", .jfloat m.result),
         ("details", .jstr m.details)]

/-- `MathServer.add`: add two numbers, with an f-string detail line. -/
def MathServer.add (a b : ℚ) : MathResult :=
  let result := a + b
  { operation := "addition"
    result := result
    details := pyRepr a ++ " + " ++ pyRepr b ++ " = " ++ pyRepr result }

/-- `MathServer.subtract`: subtract the second number from the first. -/
def MathServer.subtract (a b : ℚ) : MathResult :=
  let result := a - b
  { operation := "subtraction"
    result := result
    details := pyRepr a ++ " - " ++ pyRepr b ++ " = " ++ pyRepr result }

/-- The body of the `try` block of `math_server.call_tool`: match on the
tool name, check required keys, coerce with `float`, run the handler. -/
def mathDispatch (name : String) (arguments : Args) : Except String MathResult :=
  if name = MathTools.ADD then
    if !(["a", "b"].all fun k => (arguments.get? k).isSome) then
      .error "Missing required arguments: a and b"
    else do
      let a ← pyFloat ((arguments.get? "a").getD .jnull)
      let b ← pyFloat ((arguments.get? "b").getD .jnull)
      .ok (MathServer.add a b)
  else if name = MathTools.SUBTRACT then
    if !(["a", "b"].all fun k => (arguments.get? k).isSome) then
      .error "Missing required arguments: a and b"
    else do
      let a ← pyFloat ((arguments.get? "a").getD .jnull)
      let b ← pyFloat ((arguments.get? "b").getD .jnull)
      .ok (MathServer.subtract a b)
  else
    .error ("Unknown tool: " ++ name)

/-- `math_server.call_tool`: dispatch, serialize the result as a single
`TextContent`, and re-wrap any exception as an `McpError` message. -/
def mathCallTool (name : String) (arguments : Args) : Except String (List TextContent) :=
  match mathDispatch name arguments with
  | .ok result => .ok [⟨"text", jsonDumps result.model_dump⟩]
  | .error e => .error ("Error processing math operation: " ++ e)

/-! ### scw_server.py -/

/-- A Python exception at the dispatch boundary of `scw_server.call_tool`,
which distinguishes `requests.exceptions.RequestException` from every other
exception (`ValueError` raises, pydantic validation, attribute errors). -/
inductive PyErr where
  | requestError : String → PyErr
  | valueError : String → PyErr
deriving Repr, DecidableEq

/-- An outbound `requests` call: method, URL, headers, query params
(`params=`), JSON body (`json=`). -/
structure HttpRequest where
  method : String
  url : String
  headers : List (String × String)
  params : List (String × JVal)
  body : Option JVal
deriving Repr

/-- The network boundary: maps a request either to the parsed JSON body of a
successful response (`response.raise_for_status(); response.json()`), or to
the message of a raised `requests.exceptions.RequestException` (connection
failure or HTTP error status). -/
abbrev Http := HttpRequest → Except String JVal

/-- `ScalewayTools.LIST_INSTANCES`. -/
def ScalewayTools.LIST_INSTANCES : String := "list_instances"

/-- `ScalewayTools.GET_INSTANCE`. -/
def ScalewayTools.GET_INSTANCE : String := "get_instance"

/-- `ScalewayTools.PERFORM_ACTION`. -/
def ScalewayTools.PERFORM_ACTION : String := "perform_action"

/-- `ScalewayServer.__init__` state: the auth token (base URL and headers
are derived). -/
structure ScalewayServer where
  auth_token : String
deriving Repr, DecidableEq

/-- `self.base_url`. -/
def ScalewayServer.base_url (_ : ScalewayServer) : String := "https://api.scaleway.com"

/-- `self.headers`. -/
def ScalewayServer.headers (s : ScalewayServer) : List (String × String) :=
  [("X-Auth-Token", s.auth_token), ("Content-Type", "application/json")]

/-- The `Instance` pydantic model. -/
structure Instance where
  id : String
  name : String
  state : String
  commercial_type : String
  private_ip : Option String
  zone : String
  tags : List String
deriving Repr, DecidableEq

/-- The `ListInstancesResponse` pydantic model. -/
structure ListInstancesResponse where
  instances : List Instance
  total_count : ℤ
deriving Repr, DecidableEq

/-- The `InstanceDetailResponse` pydantic model. -/
structure InstanceDetailResponse where
  «instance» : Instance
deriving Repr, DecidableEq

/-- The `Task` pydantic model. -/
structure Task where
  id : String
  description : String
  progress : ℤ
  started_at : Option String
  terminated_at : Option String
  status : String
  href_from : Option String
  href_result : Option String
  zone : String
deriving Repr, DecidableEq

/-- The `ActionResponse` pydantic model. -/
structure ActionResponse where
  task : Task
deriving Repr, DecidableEq

/-- An optional string as JSON (`None` dumps as `null`). -/
def optStrJ : Option String → JVal
  | none => .jnull
  | some s => .jstr s

/-- `Instance.model_dump()`. -/
def Instance.model_dump (i : Instance) : JVal :=
  .jobj [("id", .jstr i.id), ("name", .jstr i.name), ("state", .jstr i.state),
         ("commercial_type", .jstr i.commercial_type),
         ("private_ip", optStrJ i.private_ip), ("zone", .jstr i.zone),
         ("tags", .jarr (i.tags.map JVal.jstr))]

/-- `ListInstancesResponse.model_dump()`. -/
def ListInstancesResponse.model_dump (r : ListInstancesResponse) : JVal :=
  .jobj [("instances", .jarr (r.instances.map Instance.model_dump)),
         ("total_count", .jint r.total_count)]

/-- `InstanceDetailResponse.model_dump()`. -/
def InstanceDetailResponse.model_dump (r : InstanceDetailResponse) : JVal :=
  .jobj [("instance", r.«instance».model_dump)]

/-- `Task.model_dump()`. -/
def Task.model_dump (t : Task) : JVal :=
  .jobj [("id", .jstr t.id), ("description", .jstr t.description),
         ("progress", .jint t.progress), ("started_at", optStrJ t.started_at),
         ("terminated_at", optStrJ t.terminated_at), ("status", .jstr t.status),
         ("href_from", optStrJ t.href_from), ("href_result", optStrJ t.href_result),
         ("zone", .jstr t.zone)]

/-- `ActionResponse.model_dump()`. -/
def ActionResponse.model_dump (r : ActionResponse) : JVal :=
  .jobj [("task", r.task.model_dump)]

/-- Python `str(v)` as used in f-string URL interpolation. (The list/dict
renderings are simplified placeholders; every specified call interpolates a
string, where `str` is the identity.) -/
def pyStrJ : JVal → String
  | .jstr s => s
  | .jint n => String.mk (intChars n)
  | .jfloat q => pyRepr q
  | .jbool b => if b then "True" else "False"
  | .jnull => "None"
  | .jarr _ => "[...]"
  | .jobj _ => "\x7b...\x7d"

/-- Python truthiness, as in `if project:`. -/
def pyTruthy : JVal → Bool
  | .jnull => false
  | .jbool b => b
  | .jint n => n ≠ 0
  | .jfloat q => q ≠ 0
  | .jstr s => s ≠ ""
  | .jarr xs => !xs.isEmpty
  | .jobj fs => !fs.isEmpty

/-- Python `x is not None` on a JSON-decoded value. -/
def isNotNone : JVal → Bool
  | .jnull => false
  | _ => true

/-- Python `v == s` for a string literal `s` (false on any non-string). -/
def isStrEq (v : JVal) (s : String) : Bool :=
  match v with
  | .jstr t => t = s
  | _ => false

/-- Python `d.get(k, default)`; a non-dict receiver raises
`AttributeError` (caught by the generic `except` clause). -/
def dictGet (v : JVal) (k : String) (d : JVal) : Except PyErr JVal :=
  match v with
  | .jobj fs => .ok ((Args.get? fs k).getD d)
  | _ => .error (.valueError "object has no attribute 'get'")

/-- Iterating `for x in v` requires a JSON array here; anything else raises
(the modelled message summarizes `TypeError`). -/
def asList : JVal → Except PyErr (List JVal)
  | .jarr xs => .ok xs
  | _ => .error (.valueError "object is not iterable")

/-- pydantic validation of a `str` field (lax mode does not coerce
non-strings to strings; the message summarizes the `ValidationError`). -/
def pydStr : JVal → Except PyErr String
  | .jstr s => .ok s
  | _ => .error (.valueError "validation error: input should be a valid string")

/-- pydantic validation of an `Optional[str]` field. -/
def pydOptStr : JVal → Except PyErr (Option String)
  | .jnull => .ok none
  | .jstr s => .ok (some s)
  | _ => .error (.valueError "validation error: input should be a valid string")

/-- pydantic validation of an `int` field (lax mode accepts integral
floats; digit-string coercion is not modelled — no claim reaches it). -/
def pydInt : JVal → Except PyErr ℤ
  | .jint n => .ok n
  | .jfloat q =>
    if q.den = 1 then .ok q.num
    else .error (.valueError "validation error: input should be a valid integer")
  | _ => .error (.valueError "validation error: input should be a valid integer")

/-- pydantic validation of a `List[str]` field. -/
def pydStrList : JVal → Except PyErr (List String)
  | .jarr xs => xs.mapM pydStr
  | _ => .error (.valueError "validation error: input should be a valid list")

/-- The `Instance(id=server.get("id", ""), ...)` construction from one
entry of the `servers` array, including pydantic field validation. -/
def Instance.ofServer (server : JVal) : Except PyErr Instance := do
  let i ← pydStr (← dictGet server "id" (.jstr ""))
  let n ← pydStr (← dictGet server "name" (.jstr ""))
  let st ← pydStr (← dictGet server "state" (.jstr ""))
  let ct ← pydStr (← dictGet server "commercial_type" (.jstr ""))
  let pip ← pydOptStr (← dictGet server "private_ip" .jnull)
  let z ← pydStr (← dictGet server "zone" (.jstr ""))
  let tg ← pydStrList (← dictGet server "tags" (.jarr []))
  .ok ⟨i, n, st, ct, pip, z, tg⟩

/-- `ScalewayServer.list_instances`: build the query, call the API, convert
each returned server entry, and report `total_count = len(instances)`.
Arguments arrive as raw JSON values: `call_tool` passes them through
uncoerced. -/
def ScalewayServer.list_instances (s : ScalewayServer) (http : Http)
    (zone per_page page project state : JVal) : Except PyErr ListInstancesResponse := do
  let url := s.base_url ++ "/instance/v1/zones/" ++ pyStrJ zone ++ "/servers"
  let params := [("per_page", per_page), ("page", page), ("state", state)]
  let params := if pyTruthy project then params ++ [("project", project)] else params
  let data ← (http ⟨"GET", url, s.headers, params, none⟩).mapError PyErr.requestError
  let entries ← asList (← dictGet data "servers" (.jarr []))
  let instances ← entries.mapM Instance.ofServer
  .ok ⟨instances, (instances.length : ℤ)⟩

/-- `ScalewayServer.get_instance`. -/
def ScalewayServer.get_instance (s : ScalewayServer) (http : Http)
    (zone server_id : JVal) : Except PyErr InstanceDetailResponse := do
  let url := s.base_url ++ "/instance/v1/zones/" ++ pyStrJ zone ++ "/servers/"
      ++ pyStrJ server_id
  let data ← (http ⟨"GET", url, s.headers, [], none⟩).mapError PyErr.requestError
  let server ← dictGet data "server" (.jobj [])
  let inst ← Instance.ofServer server
  .ok ⟨inst⟩

/-- The request payload built by `ScalewayServer.perform_action`: always
`action`; `name`/`volumes` only when supplied and the action is `backup`;
`disable_ipv6` only when supplied and the action is `enable_routed_ip`. -/
def performActionPayload (action name volumes disable_ipv6 : JVal) :
    List (String × JVal) :=
  let payload := [("action", action)]
  let payload :=
    if isNotNone name && isStrEq action "backup" then payload ++ [("name", name)]
    else payload
  let payload :=
    if isNotNone volumes && isStrEq action "backup" then payload ++ [("volumes", volumes)]
    else payload
  let payload :=
    if isNotNone disable_ipv6 && isStrEq action "enable_routed_ip" then
      payload ++ [("disable_ipv6", disable_ipv6)]
    else payload
  payload

/-- `ScalewayServer.perform_action`: POST the payload to the action
endpoint and convert the returned task (pydantic-validated `Task`). -/
def ScalewayServer.perform_action (s : ScalewayServer) (http : Http)
    (zone server_id action name volumes disable_ipv6 : JVal) :
    Except PyErr ActionResponse := do
  let url := s.base_url ++ "/instance/v1/zones/" ++ pyStrJ zone ++ "/servers/"
      ++ pyStrJ server_id ++ "/action"
  let payload := performActionPayload action name volumes disable_ipv6
  let data ← (http ⟨"POST", url, s.headers, [], some (.jobj payload)⟩).mapError
    PyErr.requestError
  let task_data ← dictGet data "task" (.jobj [])
  let i ← pydStr (← dictGet task_data "id" (.jstr ""))
  let descr ← pydStr (← dictGet task_data "description" (.jstr ""))
  let prog ← pydInt (← dictGet task_data "progress" (.jint 0))
  let sa ← pydOptStr (← dictGet task_data "started_at" .jnull)
  let ta ← pydOptStr (← dictGet task_data "terminated_at" .jnull)
  let st ← pydStr (← dictGet task_data "status" (.jstr ""))
  let hf ← pydOptStr (← dictGet task_data "href_from" .jnull)
  let hr ← pydOptStr (← dictGet task_data "href_result" .jnull)
  let z ← pydStr (← dictGet task_data "zone" (.jstr ""))
  .ok ⟨⟨i, descr, prog, sa, ta, st, hf, hr, z⟩⟩

/-- The `result` variable of `scw_server.call_tool`: one of the three
response models. -/
inductive ScwValue where
  | listResp : ListInstancesResponse → ScwValue
  | detailResp : InstanceDetailResponse → ScwValue
  | actionResp : ActionResponse → ScwValue
deriving Repr, DecidableEq

/-- `result.model_dump()` on whichever model the branch produced. -/
def ScwValue.model_dump : ScwValue → JVal
  | .listResp r => r.model_dump
  | .detailResp r => r.model_dump
  | .actionResp r => r.model_dump

/-- The body of the `try` block of `scw_server.call_tool`: match on the
tool name, check required keys, read optional keys with their defaults, and
run the corresponding handler on the raw argument values. -/
def scwDispatch (s : ScalewayServer) (http : Http) (name : String)
    (arguments : Args) : Except PyErr ScwValue :=
  if name = ScalewayTools.LIST_INSTANCES then
    if (arguments.get? "zone").isNone then
      .error (.valueError "Missing required argument: zone")
    else
      ScwValue.listResp <$> s.list_instances http
        ((arguments.get? "zone").getD .jnull)
        ((arguments.get? "per_page").getD (.jint 50))
        ((arguments.get? "page").getD (.jint 1))
        ((arguments.get? "project").getD .jnull)
        ((arguments.get? "state").getD (.jstr "running"))
  else if name = ScalewayTools.GET_INSTANCE then
    if !(["zone", "server_id"].all fun k => (arguments.get? k).isSome) then
      .error (.valueError "Missing required arguments: zone and/or server_id")
    else
      ScwValue.detailResp <$> s.get_instance http
        ((arguments.get? "zone").getD .jnull)
        ((arguments.get? "server_id").getD .jnull)
  else if name = ScalewayTools.PERFORM_ACTION then
    if !(["zone", "server_id", "action"].all fun k => (arguments.get? k).isSome) then
      .error (.valueError "Missing required arguments: zone, server_id, and/or action")
    else
      ScwValue.actionResp <$> s.perform_action http
        ((arguments.get? "zone").getD .jnull)
        ((arguments.get? "server_id").getD .jnull)
        ((arguments.get? "action").getD .jnull)
        ((arguments.get? "name").getD .jnull)
        ((arguments.get? "volumes").getD .jnull)
        ((arguments.get? "disable_ipv6").getD .jnull)
  else
    .error (.valueError ("Unknown tool: " ++ name))

/-- `scw_server.call_tool`: dispatch, serialize as one `TextContent`, and
re-wrap exceptions as `McpError` messages — `RequestException` with the
`API request error` prefix, everything else with the generic prefix. -/
def scwCallTool (s : ScalewayServer) (http : Http) (name : String)
    (arguments : Args) : Except String (List TextContent) :=
  match scwDispatch s http name arguments with
  | .ok result => .ok [⟨"text", jsonDumps result.model_dump⟩]
  | .error (.requestError m) => .error ("API request error: " ++ m)
  | .error (.valueError m) => .error ("Error processing Scaleway operation: " ++ m)

/-! ### list_tools catalogs -/

/-- An MCP `Tool` descriptor. -/
structure Tool where
  name : String
  description : String
  inputSchema : JVal

/-- `math_server.list_tools()`: the advertised math tool catalog, in source
order. The function takes no arguments and reads no state; `Unit` stands
for its (empty) parameter list. -/
def mathListTools (_ : Unit) : List Tool :=
  [⟨MathTools.ADD, "Add two numbers together",
    .jobj [("type", .jstr "object"),
           ("properties", .jobj
             [("a", .jobj [("type", .jstr "number"),
                           ("description", .jstr "First number")]),
              ("b", .jobj [("type", .jstr "number"),
                           ("description", .jstr "Second number")])]),
           ("required", .jarr [.jstr "a", .jstr "b"])]⟩,
   ⟨MathTools.SUBTRACT, "Subtract second number from first",
    .jobj [("type", .jstr "object"),
           ("properties", .jobj
             [("a", .jobj [("type", .jstr "number"),
                           ("description", .jstr "First number (minuend)")]),
              ("b", .jobj [("type", .jstr "number"),
                           ("description", .jstr "Second number (subtrahend)")])]),
           ("required", .jarr [.jstr "a", .jstr "b"])]⟩]

/-- The `zone` property schema shared by the three Scaleway tools. -/
def zoneSchema : JVal :=
  .jobj [("type", .jstr "string"),
         ("description", .jstr
           "Availability zone (e.g., fr-par-1, fr-par-2, fr-par-3, nl-ams-1, pl-waw-1, ...)"),
         ("enum", .jarr [.jstr "fr-par-1", .jstr "fr-par-2", .jstr "fr-par-3",
                         .jstr "nl-ams-1", .jstr "nl-ams-2", .jstr "nl-ams-3",
                         .jstr "pl-waw-1", .jstr "pl-waw-2", .jstr "pl-waw-3"])]

/-- `scw_server.list_tools()`: the advertised Scaleway tool catalog, in
source order. -/
def scwListTools (_ : Unit) : List Tool :=
  [⟨ScalewayTools.LIST_INSTANCES, "List instances in a specific Scaleway availability zone",
    .jobj [("type", .jstr "object"),
           ("properties", .jobj
             [("zone", zoneSchema),
              ("per_page", .jobj [("type", .jstr "integer"),
                                  ("description", .jstr "Number of items per page (max 100)"),
                                  ("default", .jint 50)]),
              ("page", .jobj [("type", .jstr "integer"),
                              ("description", .jstr "Page number"),
                              ("default", .jint 1)]),
              ("project", .jobj [("type", .jstr "string"),
                                 ("description", .jstr "Filter by project ID (optional)")]),
              ("state", .jobj [("type", .jstr "string"),
                               ("description", .jstr "Instance state filter"),
                               ("default", .jstr "running"),
                               ("enum", .jarr [.jstr "running", .jstr "stopped",
                                               .jstr "stopped in place"])])]),
           ("required", .jarr [.jstr "zone"])]⟩,
   ⟨ScalewayTools.GET_INSTANCE, "Get details of a specific Scaleway instance",
    .jobj [("type", .jstr "object"),
           ("properties", .jobj
             [("zone", zoneSchema),
              ("server_id", .jobj [("type", .jstr "string"),
                                   ("description", .jstr
                                     "UUID of the instance you want to get details for")])]),
           ("required", .jarr [.jstr "zone", .jstr "server_id"])]⟩,
   ⟨ScalewayTools.PERFORM_ACTION,
    "Perform an action on a Scaleway instance (poweron, poweroff, reboot, etc.)",
    .jobj [("type", .jstr "object"),
           ("properties", .jobj
             [("zone", zoneSchema),
              ("server_id", .jobj [("type", .jstr "string"),
                                   ("description", .jstr
                                     "UUID of the instance you want to perform an action on")]),
              ("action", .jobj [("type", .jstr "string"),
                                ("description", .jstr
                                  "Action to perform on the instance (e.g. poweron, poweroff, reboot, ...)"),
                                ("default", .jstr "poweron"),
                                ("enum", .jarr [.jstr "poweron", .jstr "poweroff",
                                                .jstr "stop_in_place", .jstr "reboot",
                                                .jstr "backup", .jstr "terminate",
                                                .jstr "enable_routed_ip"])]),
              ("name", .jobj [("type", .jstr "string"),
                              ("description", .jstr "Name of the backup (only for backup action)")]),
              ("volumes", .jobj [("type", .jstr "object"),
                                 ("description", .jstr
                                   "For each volume UUID, the snapshot parameters (only for backup action)"),
                                 ("additionalProperties", .jobj [])]),
              ("disable_ipv6", .jobj [("type", .jstr "boolean"),
                                      ("description", .jstr
                                        "Disable IPv6 on the instance (only for enable_routed_ip action)")])]),
           ("required", .jarr [.jstr "zone", .jstr "server_id", .jstr "action"])]⟩]

/-! ### Session state machine -/

/-- The session protocol states of spec §4.2. -/
inductive SessionState where
  | uninitialized : SessionState
  | initialized : SessionState
  | closed : SessionState
deriving Repr, DecidableEq

/-- Modelled from the spec: the per-session message loop lives in the
external MCP runtime (`mcp.server.Server.run`), not in this repository.
Per spec §4.2/§4.3, a `call_tool` request handled in `Initialized` runs the
registered dispatch function and returns its result (or its error) as the
correlated response, leaving the session `Initialized`; in any other state
the request fails without invoking the dispatch function. -/
def sessionStep (handler : String → Args → Except String (List TextContent))
    (st : SessionState) (name : String) (arguments : Args) :
    Except String (List TextContent) × SessionState :=
  match st with
  | .initialized => (handler name arguments, .initialized)
  | .uninitialized => (.error "ProtocolStateError: session not initialized", st)
  | .closed => (.error "SessionClosedError: session closed", st)

/-- A diagnostic `Http` oracle that fails every request with a message
reflecting the query parameters it received — used to observe exactly what
argument values a handler forwards to the network boundary. -/
def reflectParams : Http := fun req =>
  .error (String.join (req.params.map fun p => p.1 ++ "=" ++ pyStrJ p.2 ++ ";"))

/-! ### json.loads

A model of the peer-side parser `json.loads`, used to state the
serialization round-trip property. Recursion is fuel-indexed (the fuel is
an upper bound on nesting depth; `jsonLoads` supplies input length, which
always suffices). -/

/-- JSON whitespace (`json.decoder` skips space, tab, newline, return). -/
def isWs (c : Char) : Bool := c = ' ' || c = '\t' || c = '\n' || c = '\r'

/-- Skip leading whitespace. -/
def skipWs (l : List Char) : List Char := l.dropWhile isWs

/-- The integer part of a JSON number: `0`, or a nonzero digit followed by
maximal digits (leading zeros are not consumed, as in the `json` module's
number grammar). -/
def parseIntPart : List Char → Option (ℕ × List Char)
  | [] => none
  | c :: rest =>
    if c = '0' then some (0, rest)
    else if c.isDigit then
      some (digitsToNat ((c :: rest).takeWhile Char.isDigit),
            (c :: rest).dropWhile Char.isDigit)
    else none

/-- The optional fraction `.digits`: consumed only when at least one digit
follows the point. Returns (value, digit count, present, remaining). -/
def parseFrac : List Char → ℕ × ℕ × Bool × List Char
  | [] => (0, 0, false, [])
  | c :: t =>
    if c = '.' then
      let ds := t.takeWhile Char.isDigit
      if ds.isEmpty then (0, 0, false, c :: t)
      else (digitsToNat ds, ds.length, true, t.dropWhile Char.isDigit)
    else (0, 0, false, c :: t)

/-- The optional exponent `[eE][+-]?digits`: consumed only when complete.
Returns (signed exponent, present, remaining). -/
def parseExp : List Char → ℤ × Bool × List Char
  | [] => (0, false, [])
  | c :: t =>
    if c = 'e' ∨ c = 'E' then
      let signAndRest : Bool × List Char :=
        match t with
        | '-' :: t2 => (true, t2)
        | '+' :: t2 => (false, t2)
        | _ => (false, t)
      let ds := signAndRest.2.takeWhile Char.isDigit
      if ds.isEmpty then (0, false, c :: t)
      else ((if signAndRest.1 then -(digitsToNat ds : ℤ) else (digitsToNat ds : ℤ)), true,
            signAndRest.2.dropWhile Char.isDigit)
    else (0, false, c :: t)

/-- An unsigned JSON number body (after an optional minus sign `neg`):
integer part, optional fraction, optional exponent; with fraction or
exponent it decodes as a float, otherwise as an int. -/
def parseUnsigned (neg : Bool) (l : List Char) : Option (JVal × List Char) :=
  match parseIntPart l with
  | none => none
  | some (ip, r1) =>
    let fr := parseFrac r1
    let ex := parseExp fr.2.2.2
    let mag : ℚ := ((ip : ℚ) + (fr.1 : ℚ) / (10 : ℚ) ^ fr.2.1) * (10 : ℚ) ^ ex.1
    if fr.2.2.1 || ex.2.1 then
      some (.jfloat (if neg then -mag else mag), ex.2.2)
    else
      some (.jint (if neg then -(ip : ℤ) else (ip : ℤ)), ex.2.2)

/-- A JSON number per the `json` module: optional minus then the body.
(`NaN`/`Infinity`, which `json.loads` also accepts, are not modelled; no
serialized value produces them.) -/
def parseNum : List Char → Option (JVal × List Char)
  | [] => none
  | c :: t => if c = '-' then parseUnsigned true t else parseUnsigned false (c :: t)

/-- Decode one hex digit. -/
def hexVal (c : Char) : ℕ :=
  if c.isDigit then c.toNat - 48
  else if 97 ≤ c.toNat ∧ c.toNat ≤ 102 then c.toNat - 87
  else if 65 ≤ c.toNat ∧ c.toNat ≤ 70 then c.toNat - 55
  else 0

/-- Whether a character is a hex digit. -/
def isHex (c : Char) : Bool :=
  c.isDigit || (97 ≤ c.toNat && c.toNat ≤ 102) || (65 ≤ c.toNat && c.toNat ≤ 70)

mutual

/-- The body of a JSON string after the opening quote: literal characters
until the closing quote, escapes handled by `escapeSeq`. -/
def parseStrBody (acc : List Char) : List Char → Option (String × List Char)
  | [] => none
  | c :: rest =>
    if c = '"' then some (String.mk acc.reverse, rest)
    else if c = '\\' then escapeSeq acc rest
    else if c.toNat < 32 then none
    else parseStrBody (c :: acc) rest
termination_by l => 2 * l.length + 1
decreasing_by all_goals simp_arith

/-- One escape sequence after a backslash: the standard short escapes, and
`\uXXXX` decoded by `uniCont`, as `json.loads` performs it. -/
def escapeSeq (acc : List Char) (l : List Char) : Option (String × List Char) :=
  match l with
  | [] => none
  | e :: rest =>
    if e = 'u' then
      match rest with
      | h1 :: h2 :: h3 :: h4 :: rest1 =>
        if isHex h1 && isHex h2 && isHex h3 && isHex h4 then
          uniCont acc (((hexVal h1 * 16 + hexVal h2) * 16 + hexVal h3) * 16 + hexVal h4) rest1
        else none
      | _ => none
    else if e = '"' then parseStrBody ('"' :: acc) rest
    else if e = '\\' then parseStrBody ('\\' :: acc) rest
    else if e = '/' then parseStrBody ('/' :: acc) rest
    else if e = 'b' then parseStrBody ('\x08' :: acc) rest
    else if e = 'f' then parseStrBody ('\x0c' :: acc) rest
    else if e = 'n' then parseStrBody ('\n' :: acc) rest
    else if e = 'r' then parseStrBody ('\r' :: acc) rest
    else if e = 't' then parseStrBody ('\t' :: acc) rest
    else none
termination_by 2 * l.length + 2
decreasing_by all_goals (simp_arith; try omega)

/-- Continue after a decoded `\uXXXX` unit `n`: a high surrogate
immediately followed by a `\uXXXX` low surrogate recombines into one
astral code point, exactly as `json.loads` pairs them; otherwise the unit
stands alone (a lone surrogate, which Python would keep as a lone
surrogate character, has no `Char` counterpart and decodes as code point
0 — unreachable from `json.dumps` output of well-formed strings). -/
def uniCont (acc : List Char) (n : ℕ) (l : List Char) : Option (String × List Char) :=
  if 55296 ≤ n ∧ n < 56320 then
    match l with
    | b :: u :: g1 :: g2 :: g3 :: g4 :: rest2 =>
      if b = '\\' ∧ u = 'u' ∧ (isHex g1 && isHex g2 && isHex g3 && isHex g4) = true ∧
          56320 ≤ ((hexVal g1 * 16 + hexVal g2) * 16 + hexVal g3) * 16 + hexVal g4 ∧
          ((hexVal g1 * 16 + hexVal g2) * 16 + hexVal g3) * 16 + hexVal g4 < 57344 then
        parseStrBody (Char.ofNat (65536 + (n - 55296) * 1024 +
          (((hexVal g1 * 16 + hexVal g2) * 16 + hexVal g3) * 16 + hexVal g4 - 56320)) :: acc)
          rest2
      else parseStrBody (Char.ofNat n :: acc) (b :: u :: g1 :: g2 :: g3 :: g4 :: rest2)
    | l2 => parseStrBody (Char.ofNat n :: acc) l2
  else parseStrBody (Char.ofNat n :: acc) l
termination_by 2 * l.length + 2
decreasing_by all_goals (simp_arith; try omega)

end

mutual

/-- One JSON value (fuel-indexed recursion): skip whitespace, then decode
a literal, string, number, array or object, as `json.loads` does. -/
def parseVal : ℕ → List Char → Option (JVal × List Char)
  | 0, _ => none
  | fuel + 1, l =>
    match skipWs l with
    | [] => none
    | c :: rest =>
      if c = 'n' then
        match rest with
        | 'u' :: 'l' :: 'l' :: r => some (.jnull, r)
        | _ => none
      else if c = 't' then
        match rest with
        | 'r' :: 'u' :: 'e' :: r => some (.jbool true, r)
        | _ => none
      else if c = 'f' then
        match rest with
        | 'a' :: 'l' :: 's' :: 'e' :: r => some (.jbool false, r)
        | _ => none
      else if c = '"' then
        match parseStrBody [] rest with
        | some (s, r) => some (.jstr s, r)
        | none => none
      else if c = '[' then
        match skipWs rest with
        | [] => none
        | c2 :: r2 =>
          if c2 = ']' then some (.jarr [], r2)
          else
            match parseVal fuel rest with
            | some (v, r1) =>
              (match parseArrTail fuel r1 with
               | some (vs, r3) => some (.jarr (v :: vs), r3)
               | none => none)
            | none => none
      else if c = '\x7b' then
        match skipWs rest with
        | [] => none
        | c2 :: r2 =>
          if c2 = '\x7d' then some (.jobj [], r2)
          else
            match parseMember fuel rest with
            | some (f, r1) =>
              (match parseObjTail fuel r1 with
               | some (fs, r3) => some (.jobj (f :: fs), r3)
               | none => none)
            | none => none
      else parseNum (c :: rest)

/-- The items after the first of a JSON array: `, value`* then `]`. -/
def parseArrTail : ℕ → List Char → Option (List JVal × List Char)
  | 0, _ => none
  | fuel + 1, l =>
    match skipWs l with
    | [] => none
    | c :: rest =>
      if c = ',' then
        match parseVal fuel rest with
        | some (v, r1) =>
          (match parseArrTail fuel r1 with
           | some (vs, r2) => some (v :: vs, r2)
           | none => none)
        | none => none
      else if c = ']' then some ([], rest)
      else none

/-- One `"key": value` member of a JSON object. -/
def parseMember : ℕ → List Char → Option ((String × JVal) × List Char)
  | 0, _ => none
  | fuel + 1, l =>
    match skipWs l with
    | [] => none
    | c :: rest =>
      if c = '"' then
        match parseStrBody [] rest with
        | some (k, r1) =>
          (match skipWs r1 with
           | [] => none
           | c2 :: r2 =>
             if c2 = ':' then
               match parseVal fuel r2 with
               | some (v, r3) => some ((k, v), r3)
               | none => none
             else none)
        | none => none
      else none

/-- The members after the first of a JSON object: `, member`* then the
closing brace. -/
def parseObjTail : ℕ → List Char → Option (List (String × JVal) × List Char)
  | 0, _ => none
  | fuel + 1, l =>
    match skipWs l with
    | [] => none
    | c :: rest =>
      if c = ',' then
        match parseMember fuel rest with
        | some (f, r1) =>
          (match parseObjTail fuel r1 with
           | some (fs, r2) => some (f :: fs, r2)
           | none => none)
        | none => none
      else if c = '\x7d' then some ([], rest)
      else none

end

/-- `json.loads(s)`: parse one value and insist nothing but whitespace
follows. The fuel `length + 1` always suffices (nesting depth cannot
exceed input length). -/
def jsonLoads (s : String) : Option JVal :=
  match parseVal (s.toList.length + 1) s.toList with
  | some (v, rest) => if (skipWs rest).isEmpty then some v else none
  | none => none

/-! ### The value class on which the round-trip is stated -/

/-- A character that `json.dumps` emits literally (printable ASCII, no
quote, no backslash). -/
def safeChar (c : Char) : Bool :=
  32 ≤ c.toNat && c.toNat ≤ 126 && c ≠ '"' && c ≠ '\\'

/-- A string serialized without any escape sequence. -/
def safeStr (s : String) : Bool := s.toList.all safeChar

mutual

/-- Values whose serialization is exactly invertible in this model: floats
are finite decimals (every Python float that `repr` prints in positional
form is); strings, including ones that need JSON escaping, always are. -/
def jSafe : JVal → Bool
  | .jnull => true
  | .jbool _ => true
  | .jint _ => true
  | .jfloat q => decimalDen q.den
  | .jstr _ => true
  | .jarr xs => jSafeA xs
  | .jobj fs => jSafeO fs
termination_by v => sizeOf v

/-- All list elements safe. -/
def jSafeA : List JVal → Bool
  | [] => true
  | x :: xs => jSafe x && jSafeA xs
termination_by xs => sizeOf xs

/-- All object field values safe (keys are strings, always invertible). -/
def jSafeO : List (String × JVal) → Bool
  | [] => true
  | (_, v) :: fs => jSafe v && jSafeO fs
termination_by fs => sizeOf fs

end

mutual

/-- Fuel sufficient for `parseVal` on the serialization of `v`. -/
def fuelVal : JVal → ℕ
  | .jarr [] => 1
  | .jarr (x :: xs) => 1 + max (fuelVal x) (fuelTailA xs)
  | .jobj [] => 1
  | .jobj ((_, v) :: fs) => 1 + max (fuelVal v + 1) (fuelTailO fs)
  | _ => 1
termination_by v => sizeOf v

/-- Fuel sufficient for `parseArrTail` on the remaining items. -/
def fuelTailA : List JVal → ℕ
  | [] => 1
  | y :: ys => 1 + max (fuelVal y) (fuelTailA ys)
termination_by xs => sizeOf xs

/-- Fuel sufficient for `parseObjTail` on the remaining members. -/
def fuelTailO : List (String × JVal) → ℕ
  | [] => 1
  | (_, v) :: gs => 1 + max (fuelVal v + 1) (fuelTailO gs)
termination_by fs => sizeOf fs

end

/-- The serialized items of a nonempty array after the first item (the
separator-prefixed tail that `dumpsItems` appends). -/
def arrTailChars (ind : ℕ) (xs : List JVal) : List Char :=
  match xs with
  | [] => []
  | y :: ys => ',' :: '\n' :: dumpsItems ind y ys

/-- The serialized members of a nonempty object after the first member. -/
def objTailChars (ind : ℕ) (fs : List (String × JVal)) : List Char :=
  match fs with
  | [] => []
  | g :: gs => ',' :: '\n' :: dumpsFields ind g gs

/-! ### The decimal class of `float` values -/

/-- An argument value on which Python `float()` can only produce a finite
decimal: every actual CPython float is dyadic, hence finite-decimal, so this
restriction is met by every value a real peer can send. -/
def decimalVal : JVal → Bool
  | .jfloat q => decimalDen q.den
  | _ => true

/-- All argument values in the mapping are `decimalVal`. -/
def argsDecimal (arguments : Args) : Bool :=
  arguments.all fun p => decimalVal p.2

/-- Characters that can begin a serialized JSON value. -/
def valStart (c : Char) : Prop :=
  c = 'n' ∨ c = 't' ∨ c = 'f' ∨ c = '"' ∨ c = '[' ∨ c = '\x7b' ∨ c.isDigit = true ∨ c = '-'

/-- A position at which a serialized number ends: end of input or a
character that extends neither the digits, the fraction, nor an
exponent. -/
def numBoundary (l : List Char) : Prop :=
  ∀ c, l.head? = some c → c.isDigit = false ∧ c ≠ '.' ∧ c ≠ 'e' ∧ c ≠ 'E'

/-! ## Claims -/

/-- C1: for the math registry with `add(a,b)=a+b` and `subtract(a,b)=a-b`,
dispatching `add` with `{a:3, b:5}` returns the serialized structured
result `{operation:"addition", result:8, details:"3.0 + 5.0 = 8.0"}`, and
dispatching `subtract` with `{a:10, b:4}` returns
`{operation:"subtraction", result:6, details:"10.0 - 4.0 = 6.0"}`. -/
theorem mathScenario_dispatch :
    mathCallTool "add" [("a", .jint 3), ("b", .jint 5)] =
      .ok [⟨"text", jsonDumps (MathResult.mk "addition" 8 "3.0 + 5.0 = 8.0").model_dump⟩] ∧
    MathServer.add 3 5 = ⟨"addition", 8, "3.0 + 5.0 = 8.0"⟩ ∧
    mathCallTool "subtract" [("a", .jint 10), ("b", .jint 4)] =
      .ok [⟨"text", jsonDumps (MathResult.mk "subtraction" 6 "10.0 - 4.0 = 6.0").model_dump⟩] ∧
    MathServer.subtract 10 4 = ⟨"subtraction", 6, "10.0 - 4.0 = 6.0"⟩ := by
  have hadd : MathServer.add 3 5 = ⟨"addition", 8, "3.0 + 5.0 = 8.0"⟩ := by
    have h8 : (3 : ℚ) + 5 = 8 := by norm_num
    simp [MathServer.add, h8, pyRepr, decBody, decScale, stripFactor, natDigits, natDigitChar]
  have hsub : MathServer.subtract 10 4 = ⟨"subtraction", 6, "10.0 - 4.0 = 6.0"⟩ := by
    have h6 : (10 : ℚ) - 4 = 6 := by norm_num
    simp [MathServer.subtract, h6, pyRepr, decBody, decScale, stripFactor, natDigits, natDigitChar]
  have hda : mathDispatch "add" [("a", .jint 3), ("b", .jint 5)] = .ok (MathServer.add 3 5) := by
    simp [mathDispatch, MathTools.ADD, MathTools.SUBTRACT, Args.get?, pyFloat, Except.bind,
      Bind.bind]
  have hds : mathDispatch "subtract" [("a", .jint 10), ("b", .jint 4)] =
      .ok (MathServer.subtract 10 4) := by
    simp [mathDispatch, MathTools.ADD, MathTools.SUBTRACT, Args.get?, pyFloat, Except.bind,
      Bind.bind]
  refine ⟨?_, hadd, ?_, hsub⟩
  · simp [mathCallTool, hda, hadd]
  · simp [mathCallTool, hds, hsub]

/-- C2: every handler-raised error (including downstream HTTP failures via
the `Http` oracle) is re-wrapped at the dispatch boundary into one of the
`McpError` message forms, never an unhandled fault; the session stays
`Initialized` and the next call behaves exactly as a fresh dispatch. -/
theorem handlerError_wrapped_session_alive (s : ScalewayServer) (http : Http)
    (name name2 : String) (arguments args2 : Args) :
    (sessionStep (scwCallTool s http) .initialized name arguments).2 = .initialized ∧
    (sessionStep mathCallTool .initialized name arguments).2 = .initialized ∧
    (∀ e, (sessionStep (scwCallTool s http) .initialized name arguments).1 = .error e →
      (∃ m, e = "API request error: " ++ m) ∨
      (∃ m, e = "Error processing Scaleway operation: " ++ m)) ∧
    (∀ e, (sessionStep mathCallTool .initialized name arguments).1 = .error e →
      ∃ m, e = "Error processing math operation: " ++ m) ∧
    (sessionStep (scwCallTool s http)
        (sessionStep (scwCallTool s http) .initialized name arguments).2 name2 args2).1 =
      scwCallTool s http name2 args2 ∧
    (sessionStep mathCallTool
        (sessionStep mathCallTool .initialized name arguments).2 name2 args2).1 =
      mathCallTool name2 args2 := by
  refine ⟨rfl, rfl, ?_, ?_, rfl, rfl⟩
  · intro e he
    simp only [sessionStep] at he
    unfold scwCallTool at he
    cases hd : scwDispatch s http name arguments with
    | ok v => rw [hd] at he; simp at he
    | error pe =>
      rw [hd] at he
      cases pe with
      | requestError m => exact Or.inl ⟨m, by simpa using he.symm⟩
      | valueError m => exact Or.inr ⟨m, by simpa using he.symm⟩
  · intro e he
    simp only [sessionStep] at he
    unfold mathCallTool at he
    cases hd : mathDispatch name arguments with
    | ok v => rw [hd] at he; simp at he
    | error m => rw [hd] at he; exact ⟨m, by simpa using he.symm⟩

/-- C2 witness: a concrete downstream HTTP failure surfaces as a wrapped
`API request error` message. -/
theorem handlerError_wrapped_session_alive_w :
    (∃ m, "API request error: boom" = "API request error: " ++ m) ∨
    (∃ m, "API request error: boom" = "Error processing Scaleway operation: " ++ m) :=
  (handlerError_wrapped_session_alive ⟨"tok"⟩ (fun _ => .error "boom") "get_instance" "x"
      [("zone", .jstr "z"), ("server_id", .jstr "i")] []).2.2.1
    "API request error: boom" (by rfl)

/-- C3: dispatching a name that is not registered in a given registry —
with any arguments, regardless of whether the name is registered on the
other server, and (for Scaleway) for every `Http` oracle — yields that
registry's wrapped unknown-tool error as a protocol-level error value,
never a crash. -/
theorem unknownTool_protocol_error :
    (∀ (name : String) (arguments : Args),
      name ≠ MathTools.ADD → name ≠ MathTools.SUBTRACT →
      mathCallTool name arguments =
        .error ("Error processing math operation: Unknown tool: " ++ name)) ∧
    (∀ (s : ScalewayServer) (http : Http) (name : String) (arguments : Args),
      name ≠ ScalewayTools.LIST_INSTANCES → name ≠ ScalewayTools.GET_INSTANCE →
      name ≠ ScalewayTools.PERFORM_ACTION →
      scwCallTool s http name arguments =
        .error ("Error processing Scaleway operation: Unknown tool: " ++ name)) := by
  constructor
  · intro name arguments hm1 hm2
    simp [mathCallTool, mathDispatch, hm1, hm2]
    rw [← String.append_assoc]
    rfl
  · intro s http name arguments hs1 hs2 hs3
    simp [scwCallTool, scwDispatch, hs1, hs2, hs3]
    rw [← String.append_assoc]
    rfl

/-- C3 witness: `list_instances` is unknown to the math registry even
though the Scaleway registry registers it, and symmetrically `add` is
unknown to the Scaleway registry. -/
theorem unknownTool_protocol_error_w :
    mathCallTool "list_instances" [] =
      .error "Error processing math operation: Unknown tool: list_instances" ∧
    scwCallTool ⟨"tok"⟩ (fun _ => .ok .jnull) "add" [] =
      .error "Error processing Scaleway operation: Unknown tool: add" := by
  have h1 := unknownTool_protocol_error.1 "list_instances" [] (by decide) (by decide)
  have h2 := unknownTool_protocol_error.2 ⟨"tok"⟩ (fun _ => .ok .jnull) "add" []
    (by decide) (by decide) (by decide)
  exact ⟨by rw [h1]; rfl, by rw [h2]; rfl⟩

/-- C4: dispatching a registered tool with any required field missing fails
with the missing-argument error naming the field, for every tool of both
servers; the equalities hold for every `Http` oracle, so no handler (and no
outbound request) runs. -/
theorem missingRequired_invalid_arguments (s : ScalewayServer) (http : Http)
    (arguments : Args) :
    (((arguments.get? "a").isNone ∨ (arguments.get? "b").isNone) →
      mathCallTool "add" arguments =
        .error "Error processing math operation: Missing required arguments: a and b" ∧
      mathCallTool "subtract" arguments =
        .error "Error processing math operation: Missing required arguments: a and b") ∧
    ((arguments.get? "zone").isNone →
      scwCallTool s http "list_instances" arguments =
        .error "Error processing Scaleway operation: Missing required argument: zone") ∧
    (((arguments.get? "zone").isNone ∨ (arguments.get? "server_id").isNone) →
      scwCallTool s http "get_instance" arguments =
        .error
          "Error processing Scaleway operation: Missing required arguments: zone and/or server_id") ∧
    (((arguments.get? "zone").isNone ∨ (arguments.get? "server_id").isNone ∨
        (arguments.get? "action").isNone) →
      scwCallTool s http "perform_action" arguments =
        .error
          "Error processing Scaleway operation: Missing required arguments: zone, server_id, and/or action") := by
  refine ⟨?_, ?_, ?_, ?_⟩
  · intro h
    have hall : (["a", "b"].all fun k => (arguments.get? k).isSome) = false := by
      rcases h with h | h <;> rw [Option.isNone_iff_eq_none] at h <;> simp [List.all, h]
    constructor <;> simp [mathCallTool, mathDispatch, MathTools.ADD, MathTools.SUBTRACT, hall]
  · intro h
    rw [Option.isNone_iff_eq_none] at h
    simp [scwCallTool, scwDispatch, ScalewayTools.LIST_INSTANCES, ScalewayTools.GET_INSTANCE,
      ScalewayTools.PERFORM_ACTION, h]
  · intro h
    have hall : (["zone", "server_id"].all fun k => (arguments.get? k).isSome) = false := by
      rcases h with h | h <;> rw [Option.isNone_iff_eq_none] at h <;> simp [List.all, h]
    simp [scwCallTool, scwDispatch, ScalewayTools.LIST_INSTANCES, ScalewayTools.GET_INSTANCE,
      ScalewayTools.PERFORM_ACTION, hall]
  · intro h
    have hall : (["zone", "server_id", "action"].all fun k => (arguments.get? k).isSome) = false := by
      rcases h with h | h | h <;> rw [Option.isNone_iff_eq_none] at h <;> simp [List.all, h]
    simp [scwCallTool, scwDispatch, ScalewayTools.LIST_INSTANCES, ScalewayTools.GET_INSTANCE,
      ScalewayTools.PERFORM_ACTION, hall]

/-- C4 witness: omitting `a` from `add` (with `b` present) and `server_id`
from `get_instance` (with `zone` present) both fail with the
missing-argument error. -/
theorem missingRequired_invalid_arguments_w :
    mathCallTool "add" [("b", .jint 5)] =
      .error "Error processing math operation: Missing required arguments: a and b" ∧
    scwCallTool ⟨"tok"⟩ (fun _ => .ok .jnull) "get_instance" [("zone", .jstr "fr-par-1")] =
      .error
        "Error processing Scaleway operation: Missing required arguments: zone and/or server_id" :=
  ⟨((missingRequired_invalid_arguments ⟨"tok"⟩ (fun _ => .ok .jnull) [("b", .jint 5)]).1
      (Or.inl (by decide))).1,
   (missingRequired_invalid_arguments ⟨"tok"⟩ (fun _ => .ok .jnull)
      [("zone", .jstr "fr-par-1")]).2.2.1 (Or.inr (by decide))⟩

/-- C6: for the math tools, supplying a numeric argument as an integer
literal or as the equal floating literal yields the same dispatch result;
in particular `add` on `3.0`/`5.0` yields the same serialized result `8.0`
as on `3`/`5`. -/
theorem numericCoercion_same_result (n m : ℤ) :
    mathCallTool "add" [("a", .jint n), ("b", .jint m)] =
      mathCallTool "add" [("a", .jfloat (n : ℚ)), ("b", .jfloat (m : ℚ))] ∧
    mathCallTool "subtract" [("a", .jint n), ("b", .jint m)] =
      mathCallTool "subtract" [("a", .jfloat (n : ℚ)), ("b", .jfloat (m : ℚ))] ∧
    mathCallTool "add" [("a", .jfloat 3), ("b", .jfloat 5)] =
      .ok [⟨"text", jsonDumps (MathResult.mk "addition" 8 "3.0 + 5.0 = 8.0").model_dump⟩] := by
  refine ⟨rfl, rfl, ?_⟩
  have hadd : MathServer.add 3 5 = ⟨"addition", 8, "3.0 + 5.0 = 8.0"⟩ := by
    have h8 : (3 : ℚ) + 5 = 8 := by norm_num
    simp [MathServer.add, h8, pyRepr, decBody, decScale, stripFactor, natDigits, natDigitChar]
  have hda : mathDispatch "add" [("a", .jfloat 3), ("b", .jfloat 5)] =
      .ok (MathServer.add 3 5) := by
    simp [mathDispatch, MathTools.ADD, MathTools.SUBTRACT, Args.get?, pyFloat, Except.bind,
      Bind.bind]
  simp [mathCallTool, hda, hadd]

/-- C8: both catalogs list their descriptors in source (registration)
order, and repeated calls without intervening registration return the
identical sequence — this is the exact sequence `list_tools` relays. -/
theorem listTools_registration_order :
    (mathListTools ()).map Tool.name = [MathTools.ADD, MathTools.SUBTRACT] ∧
    (scwListTools ()).map Tool.name =
      [ScalewayTools.LIST_INSTANCES, ScalewayTools.GET_INSTANCE,
       ScalewayTools.PERFORM_ACTION] ∧
    (∀ u v : Unit, mathListTools u = mathListTools v) ∧
    (∀ u v : Unit, scwListTools u = scwListTools v) :=
  ⟨rfl, rfl, fun _ _ => rfl, fun _ _ => rfl⟩

/-- C9: every successful `list_instances` response reports
`total_count = len(instances)`, the size of the converted current page,
regardless of what the remote API body reports. -/
theorem totalCount_is_page_length (s : ScalewayServer) (http : Http)
    (zone per_page page project state : JVal) (r : ListInstancesResponse)
    (h : s.list_instances http zone per_page page project state = .ok r) :
    r.total_count = (r.instances.length : ℤ) := by
  unfold ScalewayServer.list_instances at h
  simp only [bind, Except.bind] at h
  repeat any_goals split at h
  any_goals simp_all
  subst h
  rfl

/-- C9 witness: an API body reporting `total_count = 999` for a two-entry
page still yields `total_count = 2`. -/
theorem totalCount_is_page_length_w :
    (ListInstancesResponse.mk
      [⟨"a", "", "", "", none, "", []⟩, ⟨"", "", "", "", none, "", []⟩] 2).total_count =
    ((ListInstancesResponse.mk
      [⟨"a", "", "", "", none, "", []⟩, ⟨"", "", "", "", none, "", []⟩] 2).instances.length : ℤ) :=
  totalCount_is_page_length ⟨"tok"⟩
    (fun _ => .ok (.jobj [("servers", .jarr [.jobj [("id", .jstr "a")], .jobj []]),
                          ("total_count", .jint 999)]))
    (.jstr "fr-par-1") (.jint 50) (.jint 1) .jnull (.jstr "running")
    (ListInstancesResponse.mk
      [⟨"a", "", "", "", none, "", []⟩, ⟨"", "", "", "", none, "", []⟩] 2) (by rfl)

/-- C10: the `perform_action` payload carries `name`/`volumes` exactly when
supplied with action `backup`, `disable_ipv6` exactly when supplied with
action `enable_routed_ip`, and for any other action it is only
`{action}`. -/
theorem performAction_payload_gating (a nm vol dis : JVal) :
    (("name", nm) ∈ performActionPayload a nm vol dis ↔
      isNotNone nm = true ∧ isStrEq a "backup" = true) ∧
    (("volumes", vol) ∈ performActionPayload a nm vol dis ↔
      isNotNone vol = true ∧ isStrEq a "backup" = true) ∧
    (("disable_ipv6", dis) ∈ performActionPayload a nm vol dis ↔
      isNotNone dis = true ∧ isStrEq a "enable_routed_ip" = true) ∧
    (isStrEq a "backup" = false → isStrEq a "enable_routed_ip" = false →
      performActionPayload a nm vol dis = [("action", a)]) := by
  unfold performActionPayload
  refine ⟨?_, ?_, ?_, ?_⟩ <;>
    cases h1 : (isNotNone nm && isStrEq a "backup") <;>
    cases h2 : (isNotNone vol && isStrEq a "backup") <;>
    cases h3 : (isNotNone dis && isStrEq a "enable_routed_ip") <;>
    simp_all

/-- C10 witness: for `poweron`, supplied optionals are silently dropped and
the payload is only `{action}`; for `backup`, a supplied `name` appears. -/
theorem performAction_payload_gating_w :
    performActionPayload (.jstr "poweron") (.jstr "bk") (.jobj []) (.jbool true) =
      [("action", .jstr "poweron")] ∧
    ("name", JVal.jstr "bk") ∈
      performActionPayload (.jstr "backup") (.jstr "bk") .jnull .jnull :=
  ⟨(performAction_payload_gating (.jstr "poweron") (.jstr "bk") (.jobj []) (.jbool true)).2.2.2
      (by decide) (by decide),
   (performAction_payload_gating (.jstr "backup") (.jstr "bk") .jnull .jnull).1.mpr
      ⟨by decide, by decide⟩⟩

end MCP

namespace MCP

theorem natDigitChar_toNat (d : ℕ) (h : d ≤ 9) : (natDigitChar d).toNat = 48 + d := by
  interval_cases d <;> decide

theorem natDigitChar_isDigit (d : ℕ) (h : d ≤ 9) : (natDigitChar d).isDigit = true := by
  interval_cases d <;> decide

theorem digitVal_natDigitChar (d : ℕ) (h : d ≤ 9) : digitVal (natDigitChar d) = d := by
  interval_cases d <;> decide

theorem natDigitChar_ne_zeroChar (d : ℕ) (h1 : 0 < d) (h2 : d ≤ 9) : natDigitChar d ≠ '0' := by
  interval_cases d <;> decide

theorem natDigits_all_digits (n : ℕ) : ∀ c ∈ natDigits n, c.isDigit = true := by
  induction n using Nat.strong_induction_on with
  | _ n ih =>
    rw [natDigits]
    split
    · intro c hc
      simp at hc
      subst hc
      exact natDigitChar_isDigit n (by omega)
    · intro c hc
      rcases List.mem_append.1 hc with h | h
      · exact ih (n / 10) (Nat.div_lt_self (by omega) (by omega)) c h
      · simp at h
        subst h
        exact natDigitChar_isDigit (n % 10) (by omega)

theorem natDigits_ne_nil (n : ℕ) : natDigits n ≠ [] := by
  rw [natDigits]
  split
  · simp
  · simp

theorem digitsToNat_from (a : ℕ) (ds : List Char) :
    ds.foldl (fun a c => a * 10 + digitVal c) a = a * 10 ^ ds.length + digitsToNat ds := by
  induction ds generalizing a with
  | nil => simp [digitsToNat]
  | cons c t ih =>
    simp only [List.foldl_cons, digitsToNat, List.length_cons]
    rw [ih (a * 10 + digitVal c), ih (0 * 10 + digitVal c)]
    ring

theorem digitsToNat_append (xs ys : List Char) :
    digitsToNat (xs ++ ys) = digitsToNat xs * 10 ^ ys.length + digitsToNat ys := by
  unfold digitsToNat
  rw [List.foldl_append]
  exact digitsToNat_from _ ys

theorem digitsToNat_natDigits (n : ℕ) : digitsToNat (natDigits n) = n := by
  induction n using Nat.strong_induction_on with
  | _ n ih =>
    rw [natDigits]
    split
    case isTrue h =>
      simp [digitsToNat, digitVal_natDigitChar n (by omega)]
    case isFalse h =>
      rw [digitsToNat_append]
      rw [ih (n / 10) (Nat.div_lt_self (by omega) (by omega))]
      simp [digitsToNat, digitVal_natDigitChar (n % 10) (by omega)]
      omega

theorem natDigits_head_pos (n : ℕ) (hn : 0 < n) :
    ∃ c cs, natDigits n = c :: cs ∧ c.isDigit = true ∧ c ≠ '0' := by
  induction n using Nat.strong_induction_on with
  | _ n ih =>
    rw [natDigits]
    split
    case isTrue h =>
      exact ⟨natDigitChar n, [], rfl, natDigitChar_isDigit n (by omega),
        natDigitChar_ne_zeroChar n hn (by omega)⟩
    case isFalse h =>
      obtain ⟨c, cs, heq, hd, hne⟩ := ih (n / 10) (Nat.div_lt_self (by omega) (by omega))
        (by omega)
      exact ⟨c, cs ++ [natDigitChar (n % 10)], by rw [heq]; rfl, hd, hne⟩

theorem digitsToNat_replicate_zero (z : ℕ) (l : List Char) :
    digitsToNat (List.replicate z '0' ++ l) = digitsToNat l := by
  induction z with
  | zero => simp
  | succ k ih =>
    rw [List.replicate_succ, List.cons_append]
    show digitsToNat ('0' :: (List.replicate k '0' ++ l)) = _
    unfold digitsToNat at *
    simp only [List.foldl_cons]
    have : (0 * 10 + digitVal '0') = 0 := by decide
    rw [this]
    exact ih

end MCP
namespace MCP

theorem takeWhile_append_boundary (p : Char → Bool) (l rest : List Char)
    (hl : ∀ c ∈ l, p c = true) (hr : ∀ c, rest.head? = some c → p c = false) :
    (l ++ rest).takeWhile p = l ∧ (l ++ rest).dropWhile p = rest := by
  induction l with
  | nil =>
    simp only [List.nil_append]
    cases rest with
    | nil => simp
    | cons c t =>
      have := hr c rfl
      simp [List.takeWhile, List.dropWhile, this]
  | cons c t ih =>
    have hc := hl c (by simp)
    have ih2 := ih (fun c hc => hl c (by simp [hc]))
    simp [List.takeWhile, List.dropWhile, hc, ih2.1, ih2.2]

theorem skipWs_eq_of_head (l : List Char) (h : ∀ c, l.head? = some c → isWs c = false) :
    skipWs l = l := by
  cases l with
  | nil => rfl
  | cons c t =>
    have := h c rfl
    simp [skipWs, List.dropWhile, this]

theorem skipWs_cons_ws (c : Char) (l : List Char) (h : isWs c = true) :
    skipWs (c :: l) = skipWs l := by
  simp [skipWs, List.dropWhile, h]

theorem skipWs_indent (ind : ℕ) (l : List Char) :
    skipWs (indentChars ind ++ l) = skipWs l := by
  induction ind with
  | zero => rfl
  | succ k ih =>
    rw [indentChars, List.replicate_succ, List.cons_append,
      skipWs_cons_ws ' ' _ (by decide)]
    exact ih

theorem isDigit_toNat (c : Char) (h : c.isDigit = true) : 48 ≤ c.toNat ∧ c.toNat ≤ 57 := by
  simp [Char.isDigit, Char.le_def, decide_eq_true_eq] at h
  exact ⟨h.1, h.2⟩

theorem valStart_props (c : Char) (h : valStart c) :
    isWs c = false ∧ c ≠ ']' ∧ c ≠ '\x7d' ∧ c ≠ ',' ∧ c ≠ ':' := by
  rcases h with h | h | h | h | h | h | h | h
  all_goals try (subst h; exact ⟨by decide, by decide, by decide, by decide, by decide⟩)
  have hb := isDigit_toNat c h
  refine ⟨?_, ?_, ?_, ?_, ?_⟩
  · cases hw : isWs c
    · rfl
    · exfalso
      simp [isWs, decide_eq_true_eq] at hw
      obtain ((he | he) | he) | he := hw <;> (subst he; exact absurd hb (by decide))
  all_goals (intro he; subst he; exact absurd hb (by decide))

theorem numBoundary_nil : numBoundary [] := by
  intro c hc
  cases hc

theorem numBoundary_cons (c : Char) (t : List Char)
    (h : c.isDigit = false ∧ c ≠ '.' ∧ c ≠ 'e' ∧ c ≠ 'E') : numBoundary (c :: t) := by
  intro c' hc'
  cases hc'
  exact h

theorem numBoundary_comma (t : List Char) : numBoundary (',' :: t) :=
  numBoundary_cons _ _ ⟨by decide, by decide, by decide, by decide⟩

theorem numBoundary_newline (t : List Char) : numBoundary ('\n' :: t) :=
  numBoundary_cons _ _ ⟨by decide, by decide, by decide, by decide⟩

end MCP
namespace MCP

theorem digit_ne_minus (c : Char) (h : c.isDigit = true) : c ≠ '-' := by
  intro he
  subst he
  exact absurd h (by decide)

theorem parseIntPart_natDigits (n : ℕ) (rest : List Char)
    (hr : ∀ c, rest.head? = some c → c.isDigit = false) :
    parseIntPart (natDigits n ++ rest) = some (n, rest) := by
  by_cases hn : n = 0
  · subst hn
    have h0 : natDigits 0 = ['0'] := by rw [natDigits]; rfl
    rw [h0]
    rfl
  · obtain ⟨c, cs, heq, hdig, hne⟩ := natDigits_head_pos n (by omega)
    rw [heq, List.cons_append]
    have hall : ∀ x ∈ c :: cs, x.isDigit = true := by
      rw [← heq]; exact natDigits_all_digits n
    have htw := takeWhile_append_boundary Char.isDigit (c :: cs) rest hall hr
    show parseIntPart (c :: (cs ++ rest)) = _
    simp only [parseIntPart]
    rw [if_neg hne, if_pos hdig]
    rw [show c :: (cs ++ rest) = (c :: cs) ++ rest from rfl, htw.1, htw.2, ← heq,
      digitsToNat_natDigits]

theorem parseFrac_none (l : List Char) (h : ∀ c, l.head? = some c → c ≠ '.') :
    parseFrac l = (0, 0, false, l) := by
  cases l with
  | nil => rfl
  | cons c t =>
    simp only [parseFrac]
    rw [if_neg (h c rfl)]

theorem parseExp_none (l : List Char) (h : ∀ c, l.head? = some c → c ≠ 'e' ∧ c ≠ 'E') :
    parseExp l = (0, false, l) := by
  cases l with
  | nil => rfl
  | cons c t =>
    simp only [parseExp]
    rw [if_neg]
    simp only [not_or]
    exact (h c rfl)

theorem parseUnsigned_natDigits (neg : Bool) (n : ℕ) (rest : List Char)
    (hb : numBoundary rest) :
    parseUnsigned neg (natDigits n ++ rest) =
      some (.jint (if neg then -(n : ℤ) else (n : ℤ)), rest) := by
  unfold parseUnsigned
  rw [parseIntPart_natDigits n rest (fun c hc => (hb c hc).1)]
  simp only []
  rw [parseFrac_none rest (fun c hc => (hb c hc).2.1)]
  simp only []
  rw [parseExp_none rest (fun c hc => ⟨(hb c hc).2.2.1, (hb c hc).2.2.2⟩)]
  simp

theorem parseNum_intChars (n : ℤ) (rest : List Char) (hb : numBoundary rest) :
    parseNum (intChars n ++ rest) = some (.jint n, rest) := by
  unfold intChars
  by_cases hn : n < 0
  · rw [if_pos hn]
    show parseNum ('-' :: (natDigits n.natAbs ++ rest)) = _
    simp only [parseNum, if_true]
    rw [parseUnsigned_natDigits true n.natAbs rest hb]
    simp only [if_true, Option.some.injEq, JVal.jint.injEq, Prod.mk.injEq]
    constructor
    · omega
    · trivial
  · rw [if_neg hn]
    simp only [List.nil_append]
    obtain ⟨c, cs, heq⟩ : ∃ c cs, natDigits n.natAbs = c :: cs := by
      cases hh : natDigits n.natAbs with
      | nil => exact absurd hh (natDigits_ne_nil _)
      | cons c cs => exact ⟨c, cs, rfl⟩
    have hdig : c.isDigit = true := by
      have := natDigits_all_digits n.natAbs
      rw [heq] at this
      exact this c (by simp)
    rw [heq, List.cons_append]
    simp only [parseNum]
    rw [if_neg (digit_ne_minus c hdig)]
    rw [← List.cons_append, ← heq]
    rw [parseUnsigned_natDigits false n.natAbs rest hb]
    simp only [Bool.false_eq_true, if_false, Option.some.injEq, JVal.jint.injEq, Prod.mk.injEq]
    constructor
    · omega
    · trivial

end MCP
namespace MCP

theorem stripFactor_expansion (p : ℕ) (hp : 1 < p) :
    ∀ n, n = p ^ (stripFactor p n).1 * (stripFactor p n).2 := by
  intro n
  induction n using Nat.strong_induction_on with
  | _ n ih =>
    rw [stripFactor]
    split
    case isTrue h =>
      have hlt : n / p < n := Nat.div_lt_self h.2.1 hp
      have := ih (n / p) hlt
      simp only [pow_succ]
      calc n = p * (n / p) := by
              rw [Nat.mul_div_cancel' (Nat.dvd_of_mod_eq_zero h.2.2)]
        _ = p * (p ^ (stripFactor p (n / p)).1 * (stripFactor p (n / p)).2) := by rw [← this]
        _ = p ^ (stripFactor p (n / p)).1 * p * (stripFactor p (n / p)).2 := by ring
    case isFalse h => simp

theorem stripFactor_remainder (p : ℕ) (hp : 1 < p) :
    ∀ n, 0 < n → (stripFactor p n).2 % p ≠ 0 := by
  intro n
  induction n using Nat.strong_induction_on with
  | _ n ih =>
    intro hn
    rw [stripFactor]
    split
    case isTrue h =>
      have hlt : n / p < n := Nat.div_lt_self h.2.1 hp
      have hpos : 0 < n / p := by
        rcases Nat.lt_or_ge n p with hlp | hlp
        · exfalso
          have : n % p = n := Nat.mod_eq_of_lt hlp
          omega
        · exact Nat.div_pos hlp (by omega)
      exact ih (n / p) hlt hpos
    case isFalse h =>
      simp only []
      omega

theorem stripFactor_pow_mul (p : ℕ) (hp : 1 < p) (m : ℕ) (hm : 0 < m) (hmod : m % p ≠ 0) :
    ∀ b, stripFactor p (p ^ b * m) = (b, m) := by
  intro b
  induction b with
  | zero =>
    rw [stripFactor]
    rw [dif_neg]
    · simp
    · simp only [pow_zero, one_mul]
      omega
  | succ k ih =>
    rw [stripFactor]
    rw [dif_pos]
    · have hdiv : p ^ (k + 1) * m / p = p ^ k * m := by
        rw [pow_succ]
        rw [show p ^ k * p * m = p * (p ^ k * m) by ring]
        exact Nat.mul_div_cancel_left _ (by omega)
      rw [hdiv, ih]
    · refine ⟨hp, ?_, ?_⟩
      · positivity
      · rw [pow_succ]
        rw [show p ^ k * p * m = p * (p ^ k * m) by ring]
        simp [Nat.mul_mod_right]

theorem decimalDen_parts (d : ℕ) (hd : 0 < d) (h : decimalDen d = true) :
    ∃ a b, d = 2 ^ a * 5 ^ b ∧ decScale d = max a b := by
  have h2 := stripFactor_expansion 2 (by omega) d
  have hr2 := stripFactor_remainder 2 (by omega) d hd
  set a := (stripFactor 2 d).1 with ha
  set r := (stripFactor 2 d).2 with hr
  have hrpos : 0 < r := by
    rcases Nat.eq_zero_or_pos r with h0 | h0
    · rw [h0] at h2; omega
    · exact h0
  have h5 := stripFactor_expansion 5 (by omega) r
  unfold decimalDen at h
  rw [← hr] at h
  set b := (stripFactor 5 r).1 with hb
  have hone : (stripFactor 5 r).2 = 1 := by
    simpa using h
  rw [hone, mul_one] at h5
  refine ⟨a, b, by rw [h2, h5], ?_⟩
  unfold decScale
  rw [← ha]
  have hno5 : (2 : ℕ) ^ a % 5 ≠ 0 := by
    intro hc
    have hdvd : (5 : ℕ) ∣ 2 ^ a := Nat.dvd_of_mod_eq_zero hc
    have hcop : Nat.Coprime 5 (2 ^ a) := Nat.Coprime.pow_right a (by decide)
    have h51 : Nat.gcd 5 (2 ^ a) = 5 := Nat.gcd_eq_left hdvd
    rw [Nat.Coprime] at hcop
    omega
  have hb5 : (stripFactor 5 d).1 = b := by
    have hd5 : d = 5 ^ b * 2 ^ a := by rw [h2, h5]; ring
    rw [hd5, stripFactor_pow_mul 5 (by omega) (2 ^ a) (by positivity) hno5 b]
  rw [hb5]

end MCP
namespace MCP

theorem decimalDen_dvd (d : ℕ) (hd : 0 < d) (h : decimalDen d = true) :
    d ∣ 10 ^ decScale d := by
  obtain ⟨a, b, hab, hsc⟩ := decimalDen_parts d hd h
  rw [hsc]
  conv_lhs => rw [hab]
  rw [show (10 : ℕ) ^ max a b = 2 ^ max a b * 5 ^ max a b by rw [← Nat.mul_pow]]
  exact Nat.mul_dvd_mul (pow_dvd_pow 2 (le_max_left a b)) (pow_dvd_pow 5 (le_max_right a b))

theorem decimalDen_of_dvd_pow10 (d K : ℕ) (hd : 0 < d) (h : d ∣ 10 ^ K) :
    decimalDen d = true := by
  have h2 := stripFactor_expansion 2 (by omega) d
  have hr2 := stripFactor_remainder 2 (by omega) d hd
  set r := (stripFactor 2 d).2 with hr
  have hrpos : 0 < r := by
    rcases Nat.eq_zero_or_pos r with h0 | h0
    · rw [h0] at h2; omega
    · exact h0
  have hrd : r ∣ d := Dvd.intro_left _ h2.symm
  have hrK : r ∣ 2 ^ K * 5 ^ K := by
    rw [← Nat.mul_pow]
    exact hrd.trans h
  have hcop2 : Nat.Coprime r (2 ^ K) := by
    have h2r : Nat.Coprime 2 r := (Nat.prime_two).coprime_iff_not_dvd.mpr (by
      intro hdvd
      rcases hdvd with ⟨t, ht⟩
      rw [ht] at hr2
      simp [Nat.mul_mod_right] at hr2)
    exact (Nat.coprime_comm.mp h2r).pow_right K
  have hr5 : r ∣ 5 ^ K := (Nat.Coprime.dvd_of_dvd_mul_left hcop2 hrK)
  have h5 := stripFactor_expansion 5 (by omega) r
  have hs5 := stripFactor_remainder 5 (by omega) r hrpos
  set s := (stripFactor 5 r).2 with hs
  have hsd : s ∣ r := Dvd.intro_left _ h5.symm
  have hs5K : s ∣ 5 ^ K := hsd.trans hr5
  have hscop : Nat.Coprime s 5 := by
    have h5p : Nat.Prime 5 := by norm_num
    rw [Nat.coprime_comm]
    refine h5p.coprime_iff_not_dvd.mpr ?_
    intro hdvd
    rcases hdvd with ⟨t, ht⟩
    rw [ht] at hs5
    simp [Nat.mul_mod_right] at hs5
  have hs1 : s = 1 := Nat.Coprime.eq_one_of_dvd (hscop.pow_right K) hs5K
  simp [decimalDen, ← hr, ← hs, hs1]

theorem stripFactor_one (p : ℕ) : stripFactor p 1 = (0, 1) := by
  rw [stripFactor]
  rw [dif_neg]
  rintro ⟨hp, _, hm⟩
  rw [Nat.mod_eq_of_lt hp] at hm
  exact one_ne_zero hm

theorem decimalDen_one : decimalDen 1 = true := by
  simp [decimalDen, stripFactor_one]

theorem decimalDen_rat_add (q r : ℚ) (hq : decimalDen q.den = true)
    (hr : decimalDen r.den = true) : decimalDen (q + r).den = true := by
  have h1 := decimalDen_dvd q.den q.pos hq
  have h2 := decimalDen_dvd r.den r.pos hr
  have h3 : (q + r).den ∣ 10 ^ (decScale q.den + decScale r.den) := by
    rw [pow_add]
    exact (Rat.add_den_dvd q r).trans (Nat.mul_dvd_mul h1 h2)
  exact decimalDen_of_dvd_pow10 _ _ (q + r).pos h3

theorem decimalDen_rat_sub (q r : ℚ) (hq : decimalDen q.den = true)
    (hr : decimalDen r.den = true) : decimalDen (q - r).den = true := by
  rw [sub_eq_add_neg]
  apply decimalDen_rat_add q (-r) hq
  rw [Rat.neg_den]
  exact hr

end MCP
namespace MCP

theorem digitsToNat_zeroChar : digitsToNat ['0'] = 0 := by decide

theorem parseIntPart_digits (ds rest : List Char)
    (hds : ∀ c ∈ ds, c.isDigit = true) (hne : ds ≠ [])
    (hhead : ∀ c cs, ds = c :: cs → c = '0' → cs = [])
    (hrest : ∀ c, rest.head? = some c → c.isDigit = false) :
    parseIntPart (ds ++ rest) = some (digitsToNat ds, rest) := by
  cases ds with
  | nil => exact absurd rfl hne
  | cons c cs =>
    by_cases hc0 : c = '0'
    · have hcs := hhead c cs rfl hc0
      subst hcs
      subst hc0
      show parseIntPart ('0' :: rest) = _
      simp [parseIntPart, digitsToNat_zeroChar]
    · show parseIntPart (c :: (cs ++ rest)) = _
      simp only [parseIntPart]
      rw [if_neg hc0, if_pos (hds c (by simp))]
      have htw := takeWhile_append_boundary Char.isDigit (c :: cs) rest hds hrest
      rw [show c :: (cs ++ rest) = (c :: cs) ++ rest from rfl, htw.1, htw.2]

theorem parseUnsigned_point_zero (neg : Bool) (m : ℕ) (rest : List Char)
    (hb : numBoundary rest) :
    parseUnsigned neg (natDigits m ++ '.' :: '0' :: rest) =
      some (.jfloat (if neg then -(m : ℚ) else (m : ℚ)), rest) := by
  unfold parseUnsigned
  rw [parseIntPart_natDigits m ('.' :: '0' :: rest) (by intro c hc; cases hc; decide)]
  simp only []
  have hf : parseFrac ('.' :: '0' :: rest) = (0, 1, true, rest) := by
    simp only [parseFrac, if_true]
    have htw := takeWhile_append_boundary Char.isDigit ['0'] rest
      (by intro c hc; simp at hc; subst hc; decide) (fun c hc => (hb c hc).1)
    simp only [List.singleton_append] at htw
    rw [htw.1, htw.2]
    simp [digitsToNat_zeroChar]
  rw [hf]
  simp only []
  rw [parseExp_none rest (fun c hc => ⟨(hb c hc).2.2.1, (hb c hc).2.2.2⟩)]
  simp

theorem natDigits_len_ge_two (m : ℕ) (h : 2 ≤ (natDigits m).length) : 10 ≤ m := by
  by_contra hlt
  have : natDigits m = [natDigitChar m] := by rw [natDigits]; rw [dif_pos (by omega)]
  rw [this] at h
  simp at h

theorem parseUnsigned_withPoint (neg : Bool) (m k : ℕ) (rest : List Char) (hk : 0 < k)
    (hb : numBoundary rest) :
    parseUnsigned neg (withPoint (padZeros (natDigits m) (k + 1)) k ++ rest) =
      some (.jfloat (if neg then -((m : ℚ) / 10 ^ k) else ((m : ℚ) / 10 ^ k)), rest) := by
  have hndlen : 1 ≤ (natDigits m).length := by
    cases h : natDigits m with
    | nil => exact absurd h (natDigits_ne_nil m)
    | cons a b => simp
  have hDdig : ∀ c ∈ padZeros (natDigits m) (k + 1), c.isDigit = true := by
    intro c hc
    rw [padZeros] at hc
    rcases List.mem_append.1 hc with h | h
    · rw [List.eq_of_mem_replicate h]; decide
    · exact natDigits_all_digits m c h
  have hDval : digitsToNat (padZeros (natDigits m) (k + 1)) = m := by
    rw [padZeros, digitsToNat_replicate_zero, digitsToNat_natDigits]
  set D := padZeros (natDigits m) (k + 1) with hD
  have hDlen : D.length = max (k + 1) (natDigits m).length := by
    rw [hD, padZeros]
    simp [List.length_replicate]
    omega
  have hLk : k + 1 ≤ D.length := by omega
  have hsplit : D.take (D.length - k) ++ D.drop (D.length - k) = D :=
    List.take_append_drop _ _
  have hint_len : (D.take (D.length - k)).length = D.length - k := by
    rw [List.length_take]
    omega
  have hfrac_len : (D.drop (D.length - k)).length = k := by
    rw [List.length_drop]
    omega
  have hpoint : withPoint D k ++ rest =
      D.take (D.length - k) ++ '.' :: (D.drop (D.length - k) ++ rest) := by
    rw [withPoint]
    simp
  rw [hpoint]
  unfold parseUnsigned
  have hip : parseIntPart (D.take (D.length - k) ++ '.' :: (D.drop (D.length - k) ++ rest)) =
      some (digitsToNat (D.take (D.length - k)), '.' :: (D.drop (D.length - k) ++ rest)) := by
    apply parseIntPart_digits
    · intro c hc
      exact hDdig c (List.mem_of_mem_take hc)
    · intro hnil
      rw [hnil] at hint_len
      simp at hint_len
      omega
    · intro c cs hcc hc0
      by_cases hcase : (natDigits m).length ≤ k
      · have hL1 : D.length - k = 1 := by omega
        rw [hL1] at hcc
        have hlen1 : (D.take 1).length ≤ 1 := by simp
        rw [hcc] at hlen1
        simp at hlen1
        exact hlen1
      · have hmpos : 10 ≤ m := natDigits_len_ge_two m (by omega)
        obtain ⟨c2, cs2, heq, hdig, hne⟩ := natDigits_head_pos m (by omega)
        have hpad : D = natDigits m := by
          rw [hD, padZeros]
          have h0 : k + 1 - (natDigits m).length = 0 := by omega
          rw [h0]
          simp
        obtain ⟨j, hj⟩ : ∃ j, D.length - k = j + 1 := ⟨D.length - k - 1, by omega⟩
        rw [hj, hpad, heq, List.take_succ_cons] at hcc
        injection hcc with h1 _h2
        exact absurd (h1 ▸ hc0) hne
    · intro c hc
      cases hc
      decide
  rw [hip]
  simp only []
  have hfr : parseFrac ('.' :: (D.drop (D.length - k) ++ rest)) =
      (digitsToNat (D.drop (D.length - k)), k, true, rest) := by
    simp only [parseFrac, if_true]
    have htw := takeWhile_append_boundary Char.isDigit (D.drop (D.length - k)) rest
      (fun c hc => hDdig c (List.mem_of_mem_drop hc)) (fun c hc => (hb c hc).1)
    rw [htw.1, htw.2]
    have hnem : (D.drop (D.length - k)).isEmpty = false := by
      cases hdd : D.drop (D.length - k) with
      | nil => rw [hdd] at hfrac_len; simp at hfrac_len; omega
      | cons a b => rfl
    rw [hnem]
    simp only [Bool.false_eq_true, if_false]
    rw [hfrac_len]
  rw [hfr]
  simp only []
  rw [parseExp_none rest (fun c hc => ⟨(hb c hc).2.2.1, (hb c hc).2.2.2⟩)]
  simp only [Bool.or_true, if_true]
  have harith : ((digitsToNat (D.take (D.length - k)) : ℚ) +
      (digitsToNat (D.drop (D.length - k)) : ℚ) / (10 : ℚ) ^ k) * (10 : ℚ) ^ (0 : ℤ) =
      (m : ℚ) / 10 ^ k := by
    rw [zpow_zero, mul_one]
    have hnat : digitsToNat (D.take (D.length - k)) * 10 ^ k +
        digitsToNat (D.drop (D.length - k)) = m := by
      rw [← hDval]
      conv_rhs => rw [← hsplit]
      rw [digitsToNat_append, hfrac_len]
    have h10 : ((10 : ℚ) ^ k) ≠ 0 := by positivity
    field_simp
    push_cast [← hnat]
    ring
  rw [harith]
  rfl

end MCP
namespace MCP

theorem parseUnsigned_decBody (neg : Bool) (m k : ℕ) (rest : List Char)
    (hb : numBoundary rest) :
    parseUnsigned neg (decBody m k ++ rest) =
      some (.jfloat (if neg then -((m : ℚ) / 10 ^ k) else ((m : ℚ) / 10 ^ k)), rest) := by
  by_cases hk : k = 0
  · subst hk
    rw [decBody, if_pos rfl]
    rw [show (natDigits m ++ ['.', '0']) ++ rest = natDigits m ++ '.' :: '0' :: rest by simp]
    rw [parseUnsigned_point_zero neg m rest hb]
    norm_num
  · rw [decBody, if_neg hk]
    rw [parseUnsigned_withPoint neg m k rest (by omega) hb]

theorem decBody_head (m k : ℕ) :
    ∃ c t, decBody m k = c :: t ∧ c.isDigit = true := by
  by_cases hk : k = 0
  · subst hk
    rw [decBody, if_pos rfl]
    cases hnd : natDigits m with
    | nil => exact absurd hnd (natDigits_ne_nil m)
    | cons c cs =>
      refine ⟨c, cs ++ ['.', '0'], by simp, ?_⟩
      have := natDigits_all_digits m
      rw [hnd] at this
      exact this c (by simp)
  · rw [decBody, if_neg hk]
    have hndlen : 1 ≤ (natDigits m).length := by
      cases h : natDigits m with
      | nil => exact absurd h (natDigits_ne_nil m)
      | cons a b => simp
    have hDdig : ∀ c ∈ padZeros (natDigits m) (k + 1), c.isDigit = true := by
      intro c hc
      rw [padZeros] at hc
      rcases List.mem_append.1 hc with h | h
      · rw [List.eq_of_mem_replicate h]; decide
      · exact natDigits_all_digits m c h
    have hDlen : k + 1 ≤ (padZeros (natDigits m) (k + 1)).length := by
      rw [padZeros]
      simp [List.length_replicate]
      omega
    rw [withPoint]
    cases htk : (padZeros (natDigits m) (k + 1)).take
        ((padZeros (natDigits m) (k + 1)).length - k) with
    | nil =>
      exfalso
      have := congrArg List.length htk
      rw [List.length_take] at this
      simp at this
      omega
    | cons c cs =>
      have hmem : c ∈ padZeros (natDigits m) (k + 1) := by
        have hct : c ∈ (padZeros (natDigits m) (k + 1)).take
            ((padZeros (natDigits m) (k + 1)).length - k) := by rw [htk]; simp
        exact List.mem_of_mem_take hct
      exact ⟨c, cs ++ '.' :: (padZeros (natDigits m) (k + 1)).drop
          ((padZeros (natDigits m) (k + 1)).length - k),
        by simp, hDdig c hmem⟩

theorem parseNum_pyRepr (q : ℚ) (rest : List Char) (hd : decimalDen q.den = true)
    (hb : numBoundary rest) :
    parseNum ((pyRepr q).toList ++ rest) = some (.jfloat q, rest) := by
  have hdvd : q.den ∣ 10 ^ decScale q.den := decimalDen_dvd q.den q.pos hd
  have hden0 : ((q.den : ℚ)) ≠ 0 := Nat.cast_ne_zero.mpr q.den_nz
  have hval : ((q.num.natAbs * (10 ^ decScale q.den / q.den) : ℕ) : ℚ) / 10 ^ decScale q.den
      = |q| := by
    push_cast [Nat.cast_div hdvd hden0, Int.cast_natAbs]
    conv_rhs => rw [← Rat.num_div_den q]
    rw [abs_div, Nat.abs_cast]
    field_simp
    ring
  have htl : (pyRepr q).toList =
      (if q.num < 0 then ['-'] else []) ++
        decBody (q.num.natAbs * (10 ^ decScale q.den / q.den)) (decScale q.den) := rfl
  rw [htl]
  by_cases hneg : q.num < 0
  · rw [if_pos hneg]
    show parseNum ('-' :: (decBody _ _ ++ rest)) = _
    simp only [parseNum, if_true]
    rw [parseUnsigned_decBody true _ _ rest hb]
    simp only [if_true, Option.some.injEq, JVal.jfloat.injEq, Prod.mk.injEq]
    refine ⟨?_, trivial⟩
    rw [hval, abs_of_neg (Rat.num_neg.mp hneg)]
    ring
  · rw [if_neg hneg]
    simp only [List.nil_append]
    obtain ⟨c, t, hct, hdig⟩ := decBody_head (q.num.natAbs * (10 ^ decScale q.den / q.den))
      (decScale q.den)
    rw [hct, List.cons_append]
    simp only [parseNum]
    rw [if_neg (digit_ne_minus c hdig)]
    rw [← List.cons_append, ← hct]
    rw [parseUnsigned_decBody false _ _ rest hb]
    simp only [Bool.false_eq_true, if_false, Option.some.injEq, JVal.jfloat.injEq,
      Prod.mk.injEq]
    refine ⟨?_, trivial⟩
    rw [hval, abs_of_nonneg (Rat.num_nonneg.mp (by omega))]

end MCP
namespace MCP

theorem safeChar_props (c : Char) (h : safeChar c = true) :
    32 ≤ c.toNat ∧ c.toNat ≤ 126 ∧ c ≠ '"' ∧ c ≠ '\\' := by
  simp only [safeChar, Bool.and_eq_true, decide_eq_true_eq] at h
  exact ⟨h.1.1.1, h.1.1.2, h.1.2, h.2⟩

theorem escChar_safe (c : Char) (h : safeChar c = true) : escChar c = [c] := by
  obtain ⟨h32, h126, hq, hbs⟩ := safeChar_props c h
  unfold escChar
  rw [if_neg hq, if_neg hbs]
  rw [if_neg (by intro he; subst he; simp at h32)]
  rw [if_neg (by intro he; subst he; simp at h32)]
  rw [if_neg (by intro he; subst he; simp at h32)]
  rw [if_neg (by intro he; subst he; simp at h32)]
  rw [if_neg (by intro he; subst he; simp at h32)]
  rw [if_neg (by simp; omega)]

theorem flatMap_escChar (cs : List Char) (h : ∀ c ∈ cs, safeChar c = true) :
    cs.flatMap escChar = cs := by
  induction cs with
  | nil => rfl
  | cons c t ih =>
    rw [List.flatMap_cons, escChar_safe c (h c (by simp)), ih (fun x hx => h x (by simp [hx]))]
    rfl

theorem parseStrBody_safe (cs : List Char) (h : ∀ c ∈ cs, safeChar c = true) :
    ∀ acc rest, parseStrBody acc (cs ++ '"' :: rest) =
      some (String.mk (acc.reverse ++ cs), rest) := by
  induction cs with
  | nil =>
    intro acc rest
    show parseStrBody acc ('"' :: rest) = _
    simp [parseStrBody]
  | cons c t ih =>
    intro acc rest
    obtain ⟨h32, h126, hq, hbs⟩ := safeChar_props c (h c (by simp))
    show parseStrBody acc (c :: (t ++ '"' :: rest)) = _
    simp only [parseStrBody]
    rw [if_neg hq, if_neg hbs, if_neg (by omega)]
    rw [ih (fun x hx => h x (by simp [hx])) (c :: acc) rest]
    simp

theorem parseStrBody_jstr (s : String) (rest : List Char) (h : safeStr s = true) :
    parseStrBody [] (s.toList.flatMap escChar ++ ('"' :: rest)) = some (s, rest) := by
  rw [flatMap_escChar s.toList (by simpa [safeStr, List.all_eq_true] using h)]
  rw [parseStrBody_safe s.toList (by simpa [safeStr, List.all_eq_true] using h) [] rest]
  simp

theorem char_toNat_valid (c : Char) :
    c.toNat < 55296 ∨ (57343 < c.toNat ∧ c.toNat < 1114112) := c.valid

theorem isHex_hexDigit (d : ℕ) (h : d < 16) : isHex (hexDigit d) = true := by
  interval_cases d <;> decide

theorem hexVal_hexDigit (d : ℕ) (h : d < 16) : hexVal (hexDigit d) = d := by
  interval_cases d <;> decide

theorem parseStrBody_backslash (acc rest : List Char) :
    parseStrBody acc ('\\' :: rest) = escapeSeq acc rest := by
  simp [parseStrBody]

theorem escapeSeq_u (acc : List Char) (h1 h2 h3 h4 : Char) (rest : List Char)
    (hh : (isHex h1 && isHex h2 && isHex h3 && isHex h4) = true) :
    escapeSeq acc ('u' :: h1 :: h2 :: h3 :: h4 :: rest) =
      uniCont acc (((hexVal h1 * 16 + hexVal h2) * 16 + hexVal h3) * 16 + hexVal h4) rest := by
  rw [escapeSeq.eq_def]
  simp [hh]

theorem uniCont_single (acc : List Char) (n : ℕ) (l : List Char)
    (hn : ¬(55296 ≤ n ∧ n < 56320)) :
    uniCont acc n l = parseStrBody (Char.ofNat n :: acc) l := by
  rw [uniCont.eq_def, if_neg hn]

theorem uniCont_pair (acc : List Char) (n : ℕ) (g1 g2 g3 g4 : Char) (rest2 : List Char)
    (hn : 55296 ≤ n ∧ n < 56320)
    (hg : (isHex g1 && isHex g2 && isHex g3 && isHex g4) = true)
    (hm1 : 56320 ≤ ((hexVal g1 * 16 + hexVal g2) * 16 + hexVal g3) * 16 + hexVal g4)
    (hm2 : ((hexVal g1 * 16 + hexVal g2) * 16 + hexVal g3) * 16 + hexVal g4 < 57344) :
    uniCont acc n ('\\' :: 'u' :: g1 :: g2 :: g3 :: g4 :: rest2) =
      parseStrBody (Char.ofNat (65536 + (n - 55296) * 1024 +
        (((hexVal g1 * 16 + hexVal g2) * 16 + hexVal g3) * 16 + hexVal g4 - 56320)) :: acc)
        rest2 := by
  rw [uniCont.eq_def, if_pos hn]
  simp only []
  rw [if_pos ⟨trivial, trivial, hg, hm1, hm2⟩]

theorem parseStrBody_escChar (c : Char) (acc tail : List Char) :
    parseStrBody acc (escChar c ++ tail) = parseStrBody (c :: acc) tail := by
  by_cases h1 : c = '"'
  · subst h1
    rw [show escChar '"' ++ tail = '\\' :: '"' :: tail from rfl]
    simp only [parseStrBody]
    rw [if_pos trivial, escapeSeq.eq_def]
    simp
  by_cases h2 : c = '\\'
  · subst h2
    rw [show escChar '\\' ++ tail = '\\' :: '\\' :: tail from rfl]
    simp only [parseStrBody]
    rw [if_pos trivial, escapeSeq.eq_def]
    simp
  by_cases h3 : c = '\n'
  · subst h3
    rw [show escChar '\n' ++ tail = '\\' :: 'n' :: tail from rfl]
    simp only [parseStrBody]
    rw [if_pos trivial, escapeSeq.eq_def]
    simp
  by_cases h4 : c = '\t'
  · subst h4
    rw [show escChar '\t' ++ tail = '\\' :: 't' :: tail from rfl]
    simp only [parseStrBody]
    rw [if_pos trivial, escapeSeq.eq_def]
    simp
  by_cases h5 : c = '\r'
  · subst h5
    rw [show escChar '\r' ++ tail = '\\' :: 'r' :: tail from rfl]
    simp only [parseStrBody]
    rw [if_pos trivial, escapeSeq.eq_def]
    simp
  by_cases h6 : c = '\x08'
  · subst h6
    rw [show escChar '\x08' ++ tail = '\\' :: 'b' :: tail from rfl]
    simp only [parseStrBody]
    rw [if_pos trivial, escapeSeq.eq_def]
    simp
  by_cases h7 : c = '\x0c'
  · subst h7
    rw [show escChar '\x0c' ++ tail = '\\' :: 'f' :: tail from rfl]
    simp only [parseStrBody]
    rw [if_pos trivial, escapeSeq.eq_def]
    simp
  by_cases h8 : (decide (c.toNat < 32) || decide (126 < c.toNat)) = true
  · by_cases hBMP : c.toNat < 65536
    · have hesc : escChar c = ['\\', 'u', hexDigit (c.toNat / 4096 % 16),
          hexDigit (c.toNat / 256 % 16), hexDigit (c.toNat / 16 % 16),
          hexDigit (c.toNat % 16)] := by
        rw [show escChar c = uEscape c.toNat from by
          simp [escChar, h1, h2, h3, h4, h5, h6, h7, h8]]
        rw [uEscape, if_pos hBMP]
      rw [hesc]
      show parseStrBody acc ('\\' :: 'u' :: hexDigit (c.toNat / 4096 % 16) ::
        hexDigit (c.toNat / 256 % 16) :: hexDigit (c.toNat / 16 % 16) ::
        hexDigit (c.toNat % 16) :: tail) = _
      rw [parseStrBody_backslash]
      rw [escapeSeq_u _ _ _ _ _ _ (by
        rw [isHex_hexDigit _ (by omega), isHex_hexDigit _ (by omega),
          isHex_hexDigit _ (by omega), isHex_hexDigit _ (by omega)]
        rfl)]
      rw [show ((hexVal (hexDigit (c.toNat / 4096 % 16)) * 16 +
          hexVal (hexDigit (c.toNat / 256 % 16))) * 16 +
          hexVal (hexDigit (c.toNat / 16 % 16))) * 16 + hexVal (hexDigit (c.toNat % 16)) =
          c.toNat from by
        rw [hexVal_hexDigit _ (by omega), hexVal_hexDigit _ (by omega),
          hexVal_hexDigit _ (by omega), hexVal_hexDigit _ (by omega)]
        omega]
      rw [uniCont_single _ _ _ (by
        intro hcon
        rcases char_toNat_valid c with hv | hv
        · omega
        · omega)]
      rw [Char.ofNat_toNat]
    · have hN : 65536 ≤ c.toNat ∧ c.toNat < 1114112 := by
        rcases char_toNat_valid c with hv | hv
        · omega
        · omega
      have hesc : escChar c =
          ['\\', 'u', hexDigit ((55296 + (c.toNat - 65536) / 1024) / 4096 % 16),
           hexDigit ((55296 + (c.toNat - 65536) / 1024) / 256 % 16),
           hexDigit ((55296 + (c.toNat - 65536) / 1024) / 16 % 16),
           hexDigit ((55296 + (c.toNat - 65536) / 1024) % 16)] ++
          ['\\', 'u', hexDigit ((56320 + (c.toNat - 65536) % 1024) / 4096 % 16),
           hexDigit ((56320 + (c.toNat - 65536) % 1024) / 256 % 16),
           hexDigit ((56320 + (c.toNat - 65536) % 1024) / 16 % 16),
           hexDigit ((56320 + (c.toNat - 65536) % 1024) % 16)] := by
        rw [show escChar c = uEscape c.toNat from by
          simp [escChar, h1, h2, h3, h4, h5, h6, h7, h8]]
        rw [uEscape, if_neg hBMP]
      rw [hesc]
      show parseStrBody acc
        ('\\' :: 'u' :: hexDigit ((55296 + (c.toNat - 65536) / 1024) / 4096 % 16) ::
         hexDigit ((55296 + (c.toNat - 65536) / 1024) / 256 % 16) ::
         hexDigit ((55296 + (c.toNat - 65536) / 1024) / 16 % 16) ::
         hexDigit ((55296 + (c.toNat - 65536) / 1024) % 16) ::
         '\\' :: 'u' :: hexDigit ((56320 + (c.toNat - 65536) % 1024) / 4096 % 16) ::
         hexDigit ((56320 + (c.toNat - 65536) % 1024) / 256 % 16) ::
         hexDigit ((56320 + (c.toNat - 65536) % 1024) / 16 % 16) ::
         hexDigit ((56320 + (c.toNat - 65536) % 1024) % 16) :: tail) = _
      rw [parseStrBody_backslash]
      rw [escapeSeq_u _ _ _ _ _ _ (by
        rw [isHex_hexDigit _ (by omega), isHex_hexDigit _ (by omega),
          isHex_hexDigit _ (by omega), isHex_hexDigit _ (by omega)]
        rfl)]
      rw [show ((hexVal (hexDigit ((55296 + (c.toNat - 65536) / 1024) / 4096 % 16)) * 16 +
          hexVal (hexDigit ((55296 + (c.toNat - 65536) / 1024) / 256 % 16))) * 16 +
          hexVal (hexDigit ((55296 + (c.toNat - 65536) / 1024) / 16 % 16))) * 16 +
          hexVal (hexDigit ((55296 + (c.toNat - 65536) / 1024) % 16)) =
          55296 + (c.toNat - 65536) / 1024 from by
        rw [hexVal_hexDigit _ (by omega), hexVal_hexDigit _ (by omega),
          hexVal_hexDigit _ (by omega), hexVal_hexDigit _ (by omega)]
        omega]
      rw [uniCont_pair _ _ _ _ _ _ _ (by omega)
        (by
          rw [isHex_hexDigit _ (by omega), isHex_hexDigit _ (by omega),
            isHex_hexDigit _ (by omega), isHex_hexDigit _ (by omega)]
          rfl)
        (by
          rw [hexVal_hexDigit _ (by omega), hexVal_hexDigit _ (by omega),
            hexVal_hexDigit _ (by omega), hexVal_hexDigit _ (by omega)]
          omega)
        (by
          rw [hexVal_hexDigit _ (by omega), hexVal_hexDigit _ (by omega),
            hexVal_hexDigit _ (by omega), hexVal_hexDigit _ (by omega)]
          omega)]
      rw [show 65536 + (55296 + (c.toNat - 65536) / 1024 - 55296) * 1024 +
          (((hexVal (hexDigit ((56320 + (c.toNat - 65536) % 1024) / 4096 % 16)) * 16 +
            hexVal (hexDigit ((56320 + (c.toNat - 65536) % 1024) / 256 % 16))) * 16 +
            hexVal (hexDigit ((56320 + (c.toNat - 65536) % 1024) / 16 % 16))) * 16 +
            hexVal (hexDigit ((56320 + (c.toNat - 65536) % 1024) % 16)) - 56320) = c.toNat from by
        rw [hexVal_hexDigit _ (by omega), hexVal_hexDigit _ (by omega),
          hexVal_hexDigit _ (by omega), hexVal_hexDigit _ (by omega)]
        omega]
      rw [Char.ofNat_toNat]
  · have hge : 32 ≤ c.toNat ∧ c.toNat ≤ 126 := by
      simp only [Bool.or_eq_true, decide_eq_true_eq, not_or] at h8
      omega
    rw [show escChar c = [c] from by simp [escChar, h1, h2, h3, h4, h5, h6, h7, h8]]
    show parseStrBody acc (c :: tail) = _
    simp only [parseStrBody]
    rw [if_neg h1, if_neg h2, if_neg (by omega)]

theorem parseStrBody_flatMap (cs : List Char) (acc rest : List Char) :
    parseStrBody acc (cs.flatMap escChar ++ '"' :: rest) =
      some (String.mk (acc.reverse ++ cs), rest) := by
  induction cs generalizing acc with
  | nil =>
    simp only [List.flatMap_nil, List.nil_append]
    simp [parseStrBody]
  | cons c cs ih =>
    rw [List.flatMap_cons, List.append_assoc, parseStrBody_escChar, ih]
    simp

theorem parseStrBody_jstrChars (s : String) (rest : List Char) :
    parseStrBody [] (s.toList.flatMap escChar ++ '"' :: rest) = some (s, rest) := by
  rw [parseStrBody_flatMap]
  rfl

end MCP
namespace MCP

theorem intChars_head (n : ℤ) :
    ∃ c t, intChars n = c :: t ∧ (c.isDigit = true ∨ c = '-') := by
  unfold intChars
  by_cases hn : n < 0
  · rw [if_pos hn]
    exact ⟨'-', _, rfl, Or.inr rfl⟩
  · rw [if_neg hn]
    cases hnd : natDigits n.natAbs with
    | nil => exact absurd hnd (natDigits_ne_nil _)
    | cons c cs =>
      have := natDigits_all_digits n.natAbs
      rw [hnd] at this
      exact ⟨c, cs, by simp, Or.inl (this c (by simp))⟩

theorem pyRepr_head (q : ℚ) :
    ∃ c t, (pyRepr q).toList = c :: t ∧ (c.isDigit = true ∨ c = '-') := by
  have htl : (pyRepr q).toList =
      (if q.num < 0 then ['-'] else []) ++
        decBody (q.num.natAbs * (10 ^ decScale q.den / q.den)) (decScale q.den) := rfl
  rw [htl]
  by_cases hneg : q.num < 0
  · rw [if_pos hneg]
    exact ⟨'-', decBody (q.num.natAbs * (10 ^ decScale q.den / q.den)) (decScale q.den),
      rfl, Or.inr rfl⟩
  · rw [if_neg hneg]
    obtain ⟨c, t, hct, hdig⟩ := decBody_head (q.num.natAbs * (10 ^ decScale q.den / q.den))
      (decScale q.den)
    exact ⟨c, t, by simp [hct], Or.inl hdig⟩

theorem dumpsVal_head (ind : ℕ) (v : JVal) :
    ∃ c t, dumpsVal ind v = c :: t ∧ valStart c := by
  cases v with
  | jnull => exact ⟨'n', ['u', 'l', 'l'], by simp [dumpsVal], Or.inl rfl⟩
  | jbool b =>
    cases b
    · exact ⟨'f', ['a', 'l', 's', 'e'], by simp [dumpsVal], Or.inr (Or.inr (Or.inl rfl))⟩
    · exact ⟨'t', ['r', 'u', 'e'], by simp [dumpsVal], Or.inr (Or.inl rfl)⟩
  | jint n =>
    obtain ⟨c, t, hct, hc⟩ := intChars_head n
    refine ⟨c, t, by simp [dumpsVal]; exact hct, ?_⟩
    rcases hc with h | h
    · exact Or.inr (Or.inr (Or.inr (Or.inr (Or.inr (Or.inr (Or.inl h))))))
    · exact Or.inr (Or.inr (Or.inr (Or.inr (Or.inr (Or.inr (Or.inr h))))))
  | jfloat q =>
    obtain ⟨c, t, hct, hc⟩ := pyRepr_head q
    refine ⟨c, t, by simp [dumpsVal]; exact hct, ?_⟩
    rcases hc with h | h
    · exact Or.inr (Or.inr (Or.inr (Or.inr (Or.inr (Or.inr (Or.inl h))))))
    · exact Or.inr (Or.inr (Or.inr (Or.inr (Or.inr (Or.inr (Or.inr h))))))
  | jstr s =>
    exact ⟨'"', s.toList.flatMap escChar ++ ['"'], by simp [dumpsVal, jstrChars],
      Or.inr (Or.inr (Or.inr (Or.inl rfl)))⟩
  | jarr xs =>
    cases xs with
    | nil => exact ⟨'[', [']'], by simp [dumpsVal], Or.inr (Or.inr (Or.inr (Or.inr (Or.inl rfl))))⟩
    | cons x xs =>
      exact ⟨'[', '\n' :: (dumpsItems (ind + 2) x xs ++ '\n' :: (indentChars ind ++ [']'])),
        by simp [dumpsVal], Or.inr (Or.inr (Or.inr (Or.inr (Or.inl rfl))))⟩
  | jobj fs =>
    cases fs with
    | nil =>
      exact ⟨'\x7b', ['\x7d'], by simp [dumpsVal],
        Or.inr (Or.inr (Or.inr (Or.inr (Or.inr (Or.inl rfl)))))⟩
    | cons f fs =>
      exact ⟨'\x7b', '\n' :: (dumpsFields (ind + 2) f fs ++ '\n' :: (indentChars ind ++ ['\x7d'])),
        by simp [dumpsVal], Or.inr (Or.inr (Or.inr (Or.inr (Or.inr (Or.inl rfl)))))⟩

theorem skipWs_dumpsVal (ind : ℕ) (v : JVal) (rest : List Char) :
    skipWs (dumpsVal ind v ++ rest) = dumpsVal ind v ++ rest := by
  obtain ⟨c, t, hct, hc⟩ := dumpsVal_head ind v
  rw [hct]
  exact skipWs_eq_of_head _ (by
    intro c' hc'
    cases hc'
    exact (valStart_props c hc).1)

end MCP
namespace MCP

theorem skipWs_jstrChars (s : String) (l : List Char) :
    skipWs (jstrChars s ++ l) = jstrChars s ++ l := by
  apply skipWs_eq_of_head
  intro c hc
  rw [show (jstrChars s ++ l).head? = some '"' from by rw [jstrChars]; rfl] at hc
  cases hc
  decide

theorem parseVal_ws (f : ℕ) (l l' : List Char) (h : skipWs l = skipWs l') :
    parseVal f l = parseVal f l' := by
  cases f with
  | zero => rfl
  | succ f' => simp only [parseVal]; rw [h]

theorem parseArrTail_ws (f : ℕ) (l l' : List Char) (h : skipWs l = skipWs l') :
    parseArrTail f l = parseArrTail f l' := by
  cases f with
  | zero => rfl
  | succ f' => simp only [parseArrTail]; rw [h]

theorem parseObjTail_ws (f : ℕ) (l l' : List Char) (h : skipWs l = skipWs l') :
    parseObjTail f l = parseObjTail f l' := by
  cases f with
  | zero => rfl
  | succ f' => simp only [parseObjTail]; rw [h]

theorem parseMember_ws (f : ℕ) (l l' : List Char) (h : skipWs l = skipWs l') :
    parseMember f l = parseMember f l' := by
  cases f with
  | zero => rfl
  | succ f' => simp only [parseMember]; rw [h]

theorem skipWs_skipWs (l : List Char) : skipWs (skipWs l) = skipWs l := by
  induction l with
  | nil => rfl
  | cons c t ih =>
    by_cases h : isWs c = true
    · rw [skipWs_cons_ws c t h]; exact ih
    · have h0 := skipWs_eq_of_head (c :: t) (by intro c' hc'; cases hc'; simpa using h)
      rw [h0, h0]

theorem dumpsItems_eq (ind : ℕ) (x : JVal) (xs : List JVal) :
    dumpsItems ind x xs = indentChars ind ++ dumpsVal ind x ++ arrTailChars ind xs := by
  cases xs <;> (rw [dumpsItems.eq_def]; rfl)

theorem dumpsFields_eq (ind : ℕ) (g : String × JVal) (gs : List (String × JVal)) :
    dumpsFields ind g gs =
      indentChars ind ++ jstrChars g.1 ++ ':' :: ' ' :: dumpsVal ind g.2 ++
        objTailChars ind gs := by
  cases gs <;> (rw [dumpsFields.eq_def]; rfl)

theorem numStart_ne (c : Char) (h : c.isDigit = true ∨ c = '-') :
    c ≠ 'n' ∧ c ≠ 't' ∧ c ≠ 'f' ∧ c ≠ '"' ∧ c ≠ '[' ∧ c ≠ '\x7b' := by
  rcases h with h | h
  · have hb := isDigit_toNat c h
    refine ⟨?_, ?_, ?_, ?_, ?_, ?_⟩ <;> (intro he; subst he; exact absurd hb (by decide))
  · subst h
    exact ⟨by decide, by decide, by decide, by decide, by decide, by decide⟩

theorem fuelVal_pos (v : JVal) : 1 ≤ fuelVal v := by
  cases v with
  | jarr xs => cases xs <;> simp [fuelVal]
  | jobj fs =>
    cases fs with
    | nil => simp [fuelVal]
    | cons g gs => obtain ⟨k, v⟩ := g; simp [fuelVal]
  | _ => simp [fuelVal]

theorem fuelTailA_pos (xs : List JVal) : 1 ≤ fuelTailA xs := by
  cases xs <;> simp [fuelTailA]

theorem fuelTailO_pos (fs : List (String × JVal)) : 1 ≤ fuelTailO fs := by
  cases fs with
  | nil => simp [fuelTailO]
  | cons g gs => obtain ⟨k, v⟩ := g; simp [fuelTailO]

end MCP
namespace MCP

theorem numBoundary_arrTail (ind : ℕ) (xs : List JVal) (l : List Char) :
    numBoundary (arrTailChars ind xs ++ '\n' :: l) := by
  cases xs with
  | nil => exact numBoundary_newline l
  | cons y ys => exact numBoundary_comma _

theorem numBoundary_objTail (ind : ℕ) (fs : List (String × JVal)) (l : List Char) :
    numBoundary (objTailChars ind fs ++ '\n' :: l) := by
  cases fs with
  | nil => exact numBoundary_newline l
  | cons g gs => exact numBoundary_comma _

end MCP
namespace MCP

set_option maxHeartbeats 1000000 in
theorem parse_dumps : ∀ f : ℕ,
    (∀ v ind rest, jSafe v = true → fuelVal v ≤ f → numBoundary rest →
      parseVal f (dumpsVal ind v ++ rest) = some (v, rest)) ∧
    (∀ xs ind₂ ind rest, jSafeA xs = true → fuelTailA xs ≤ f →
      parseArrTail f (arrTailChars ind₂ xs ++ '\n' :: (indentChars ind ++ ']' :: rest)) =
        some (xs, rest)) ∧
    (∀ fs ind₂ ind rest, jSafeO fs = true → fuelTailO fs ≤ f →
      parseObjTail f (objTailChars ind₂ fs ++ '\n' :: (indentChars ind ++ '\x7d' :: rest)) =
        some (fs, rest)) ∧
    (∀ k v ind₂ rest, jSafe v = true → fuelVal v + 1 ≤ f →
      numBoundary rest →
      parseMember f (jstrChars k ++ ':' :: ' ' :: (dumpsVal ind₂ v ++ rest)) =
        some ((k, v), rest)) := by
  intro f
  induction f using Nat.strong_induction_on with
  | _ f ih =>
  cases f with
  | zero =>
    refine ⟨?_, ?_, ?_, ?_⟩
    · intro v _ _ _ hf _
      have := fuelVal_pos v
      omega
    · intro xs _ _ _ _ hf
      have := fuelTailA_pos xs
      omega
    · intro fs _ _ _ _ hf
      have := fuelTailO_pos fs
      omega
    · intro k v _ _ _ hf _
      omega
  | succ f' =>
  have IH := ih f' (by omega)
  refine ⟨?_, ?_, ?_, ?_⟩
  · intro v ind rest hsafe hfuel hb
    cases v with
    | jnull =>
      have hd : dumpsVal ind .jnull ++ rest = 'n' :: 'u' :: 'l' :: 'l' :: rest := by
        simp [dumpsVal]
      rw [hd]
      simp only [parseVal]
      rw [skipWs_eq_of_head _ (by intro c hc; cases hc; decide)]
      simp
    | jbool b =>
      cases b
      · have hd : dumpsVal ind (.jbool false) ++ rest =
            'f' :: 'a' :: 'l' :: 's' :: 'e' :: rest := by
          simp [dumpsVal]
        rw [hd]
        simp only [parseVal]
        rw [skipWs_eq_of_head _ (by intro c hc; cases hc; decide)]
        simp
      · have hd : dumpsVal ind (.jbool true) ++ rest = 't' :: 'r' :: 'u' :: 'e' :: rest := by
          simp [dumpsVal]
        rw [hd]
        simp only [parseVal]
        rw [skipWs_eq_of_head _ (by intro c hc; cases hc; decide)]
        simp
    | jint n =>
      have hd : dumpsVal ind (.jint n) ++ rest = intChars n ++ rest := by simp [dumpsVal]
      rw [hd]
      obtain ⟨c, t, hct, hcs⟩ := intChars_head n
      have hvs : valStart c := by
        rcases hcs with h | h
        · exact Or.inr (Or.inr (Or.inr (Or.inr (Or.inr (Or.inr (Or.inl h))))))
        · exact Or.inr (Or.inr (Or.inr (Or.inr (Or.inr (Or.inr (Or.inr h))))))
      have hne := numStart_ne c hcs
      simp only [parseVal]
      rw [hct, List.cons_append]
      rw [skipWs_eq_of_head _ (by intro c' hc'; cases hc'; exact (valStart_props c hvs).1)]
      simp only []
      rw [if_neg hne.1, if_neg hne.2.1, if_neg hne.2.2.1, if_neg hne.2.2.2.1,
        if_neg hne.2.2.2.2.1, if_neg hne.2.2.2.2.2]
      rw [← List.cons_append, ← hct]
      exact parseNum_intChars n rest hb
    | jfloat q =>
      have hd : dumpsVal ind (.jfloat q) ++ rest = (pyRepr q).toList ++ rest := by
        simp [dumpsVal]
      rw [hd]
      obtain ⟨c, t, hct, hcs⟩ := pyRepr_head q
      have hvs : valStart c := by
        rcases hcs with h | h
        · exact Or.inr (Or.inr (Or.inr (Or.inr (Or.inr (Or.inr (Or.inl h))))))
        · exact Or.inr (Or.inr (Or.inr (Or.inr (Or.inr (Or.inr (Or.inr h))))))
      have hne := numStart_ne c hcs
      simp only [parseVal]
      rw [hct, List.cons_append]
      rw [skipWs_eq_of_head _ (by intro c' hc'; cases hc'; exact (valStart_props c hvs).1)]
      simp only []
      rw [if_neg hne.1, if_neg hne.2.1, if_neg hne.2.2.1, if_neg hne.2.2.2.1,
        if_neg hne.2.2.2.2.1, if_neg hne.2.2.2.2.2]
      rw [← List.cons_append, ← hct]
      exact parseNum_pyRepr q rest (by simpa [jSafe] using hsafe) hb
    | jstr s =>
      have hd : dumpsVal ind (.jstr s) ++ rest =
          '"' :: (s.toList.flatMap escChar ++ ('"' :: rest)) := by
        simp [dumpsVal, jstrChars]
      rw [hd]
      simp only [parseVal]
      rw [skipWs_eq_of_head _ (by intro c hc; cases hc; decide)]
      simp only []
      rw [if_neg (by decide), if_neg (by decide), if_neg (by decide), if_pos trivial]
      rw [parseStrBody_jstrChars s rest]
    | jarr xs =>
      cases xs with
      | nil =>
        have hd : dumpsVal ind (.jarr []) ++ rest = '[' :: ']' :: rest := by
          simp [dumpsVal]
        rw [hd]
        simp only [parseVal]
        rw [skipWs_eq_of_head _ (by intro c hc; cases hc; decide)]
        simp
        rw [skipWs_eq_of_head (']' :: rest) (by intro c hc; cases hc; decide)]
        simp
      | cons x xs =>
        have hsx : jSafe x = true ∧ jSafeA xs = true := by
          simpa [jSafe, jSafeA, Bool.and_eq_true] using hsafe
        have hfx : fuelVal x ≤ f' ∧ fuelTailA xs ≤ f' := by
          simp only [fuelVal] at hfuel
          omega
        have hd : dumpsVal ind (.jarr (x :: xs)) ++ rest =
            '[' :: ('\n' :: (indentChars (ind + 2) ++ (dumpsVal (ind + 2) x ++
              (arrTailChars (ind + 2) xs ++ '\n' :: (indentChars ind ++ ']' :: rest))))) := by
          simp [dumpsVal, dumpsItems_eq]
        rw [hd]
        simp only [parseVal]
        rw [skipWs_eq_of_head _ (by intro c hc; cases hc; decide)]
        simp only []
        rw [if_neg (by decide), if_neg (by decide), if_neg (by decide), if_neg (by decide),
          if_pos (by decide)]
        have hsw : skipWs ('\n' :: (indentChars (ind + 2) ++ (dumpsVal (ind + 2) x ++
            (arrTailChars (ind + 2) xs ++ '\n' :: (indentChars ind ++ ']' :: rest))))) =
            dumpsVal (ind + 2) x ++ (arrTailChars (ind + 2) xs ++ '\n' ::
              (indentChars ind ++ ']' :: rest)) := by
          rw [skipWs_cons_ws _ _ (by decide), skipWs_indent, skipWs_dumpsVal]
        rw [hsw]
        obtain ⟨c, t, hct, hvs⟩ := dumpsVal_head (ind + 2) x
        rw [show dumpsVal (ind + 2) x ++ (arrTailChars (ind + 2) xs ++ '\n' ::
          (indentChars ind ++ ']' :: rest)) = c :: (t ++ (arrTailChars (ind + 2) xs ++ '\n' ::
          (indentChars ind ++ ']' :: rest))) from by rw [hct]; rfl]
        simp only []
        rw [if_neg (valStart_props c hvs).2.1]
        have hpv : parseVal f' ('\n' :: (indentChars (ind + 2) ++ (c :: (t ++
            (arrTailChars (ind + 2) xs ++ '\n' :: (indentChars ind ++ ']' :: rest)))))) =
            some (x, arrTailChars (ind + 2) xs ++ '\n' :: (indentChars ind ++ ']' :: rest)) := by
          rw [parseVal_ws f' _ (dumpsVal (ind + 2) x ++ (arrTailChars (ind + 2) xs ++ '\n' ::
            (indentChars ind ++ ']' :: rest))) ?_]
          · exact IH.1 x (ind + 2) _ hsx.1 hfx.1 (numBoundary_arrTail _ _ _)
          · rw [skipWs_cons_ws _ _ (by decide), skipWs_indent, skipWs_dumpsVal, hct]
            exact skipWs_eq_of_head _ (by
              intro c' hc'
              cases hc'
              exact (valStart_props c hvs).1)
        rw [hpv]
        simp only []
        rw [IH.2.1 xs (ind + 2) ind rest hsx.2 hfx.2]
    | jobj fs =>
      cases fs with
      | nil =>
        have hd : dumpsVal ind (.jobj []) ++ rest = '\x7b' :: '\x7d' :: rest := by
          simp [dumpsVal]
        rw [hd]
        simp only [parseVal]
        rw [skipWs_eq_of_head _ (by intro c hc; cases hc; decide)]
        simp
        rw [skipWs_eq_of_head ('\x7d' :: rest) (by intro c hc; cases hc; decide)]
        simp
      | cons g gs =>
        obtain ⟨k, v⟩ := g
        have hsg : jSafe v = true ∧ jSafeO gs = true := by
          simpa [jSafe, jSafeO, Bool.and_eq_true] using hsafe
        have hfg : fuelVal v + 1 ≤ f' ∧ fuelTailO gs ≤ f' := by
          simp only [fuelVal] at hfuel
          omega
        have hd : dumpsVal ind (.jobj ((k, v) :: gs)) ++ rest =
            '\x7b' :: ('\n' :: (indentChars (ind + 2) ++ (jstrChars k ++ ':' :: ' ' ::
              (dumpsVal (ind + 2) v ++ (objTailChars (ind + 2) gs ++ '\n' ::
                (indentChars ind ++ '\x7d' :: rest)))))) := by
          simp [dumpsVal, dumpsFields_eq]
        rw [hd]
        simp only [parseVal]
        rw [skipWs_eq_of_head _ (by intro c hc; cases hc; decide)]
        simp only []
        rw [if_neg (by decide), if_neg (by decide), if_neg (by decide), if_neg (by decide),
          if_neg (by decide), if_pos (by decide)]
        have hsw : skipWs ('\n' :: (indentChars (ind + 2) ++ (jstrChars k ++ ':' :: ' ' ::
            (dumpsVal (ind + 2) v ++ (objTailChars (ind + 2) gs ++ '\n' ::
              (indentChars ind ++ '\x7d' :: rest)))))) =
            jstrChars k ++ ':' :: ' ' :: (dumpsVal (ind + 2) v ++ (objTailChars (ind + 2) gs ++
              '\n' :: (indentChars ind ++ '\x7d' :: rest))) := by
          rw [skipWs_cons_ws _ _ (by decide), skipWs_indent, skipWs_jstrChars]
        rw [hsw]
        rw [show jstrChars k ++ ':' :: ' ' :: (dumpsVal (ind + 2) v ++ (objTailChars (ind + 2) gs ++
          '\n' :: (indentChars ind ++ '\x7d' :: rest))) =
          '"' :: (k.toList.flatMap escChar ++ ('"' :: (':' :: ' ' :: (dumpsVal (ind + 2) v ++
            (objTailChars (ind + 2) gs ++ '\n' :: (indentChars ind ++ '\x7d' :: rest))))))
          from by simp [jstrChars]]
        simp only []
        rw [if_neg (by decide)]
        have hpm : parseMember f' ('\n' :: (indentChars (ind + 2) ++ ('"' ::
            (k.toList.flatMap escChar ++ ('"' :: (':' :: ' ' :: (dumpsVal (ind + 2) v ++
              (objTailChars (ind + 2) gs ++ '\n' :: (indentChars ind ++ '\x7d' :: rest))))))))) =
            some ((k, v), objTailChars (ind + 2) gs ++ '\n' ::
              (indentChars ind ++ '\x7d' :: rest)) := by
          rw [parseMember_ws f' _ (jstrChars k ++ ':' :: ' ' :: (dumpsVal (ind + 2) v ++
            (objTailChars (ind + 2) gs ++ '\n' :: (indentChars ind ++ '\x7d' :: rest)))) ?_]
          · exact IH.2.2.2 k v (ind + 2) _ hsg.1 hfg.1 (numBoundary_objTail _ _ _)
          · rw [skipWs_cons_ws _ _ (by decide), skipWs_indent, skipWs_jstrChars]
            rw [show jstrChars k ++ ':' :: ' ' :: (dumpsVal (ind + 2) v ++
              (objTailChars (ind + 2) gs ++ '\n' :: (indentChars ind ++ '\x7d' :: rest))) =
              '"' :: (k.toList.flatMap escChar ++ ('"' :: (':' :: ' ' :: (dumpsVal (ind + 2) v ++
                (objTailChars (ind + 2) gs ++ '\n' :: (indentChars ind ++ '\x7d' :: rest))))))
              from by simp [jstrChars]]
            exact skipWs_eq_of_head _ (by intro c' hc'; cases hc'; decide)
        rw [hpm]
        simp only []
        rw [IH.2.2.1 gs (ind + 2) ind rest hsg.2 hfg.2]
  · intro xs ind₂ ind rest hsafe hfuel
    cases xs with
    | nil =>
      rw [show arrTailChars ind₂ [] ++ '\n' :: (indentChars ind ++ ']' :: rest) =
        '\n' :: (indentChars ind ++ ']' :: rest) from by simp [arrTailChars]]
      simp only [parseArrTail]
      rw [skipWs_cons_ws _ _ (by decide), skipWs_indent,
        skipWs_eq_of_head _ (by intro c hc; cases hc; decide)]
      simp only []
      rw [if_neg (by decide), if_pos (by decide)]
    | cons y ys =>
      have hsy : jSafe y = true ∧ jSafeA ys = true := by
        simpa [jSafeA, Bool.and_eq_true] using hsafe
      have hfy : fuelVal y ≤ f' ∧ fuelTailA ys ≤ f' := by
        simp only [fuelTailA] at hfuel
        omega
      have hd : arrTailChars ind₂ (y :: ys) ++ '\n' :: (indentChars ind ++ ']' :: rest) =
          ',' :: ('\n' :: (indentChars ind₂ ++ (dumpsVal ind₂ y ++ (arrTailChars ind₂ ys ++
            '\n' :: (indentChars ind ++ ']' :: rest))))) := by
        rw [show arrTailChars ind₂ (y :: ys) = ',' :: '\n' :: dumpsItems ind₂ y ys from rfl,
          dumpsItems_eq]
        simp
      rw [hd]
      simp only [parseArrTail]
      rw [skipWs_eq_of_head _ (by intro c hc; cases hc; decide)]
      simp only []
      rw [if_pos (by decide)]
      rw [parseVal_ws f' _ (dumpsVal ind₂ y ++ (arrTailChars ind₂ ys ++ '\n' ::
        (indentChars ind ++ ']' :: rest)))
        (by rw [skipWs_cons_ws _ _ (by decide), skipWs_indent, skipWs_dumpsVal])]
      rw [IH.1 y ind₂ _ hsy.1 hfy.1 (numBoundary_arrTail _ _ _)]
      simp only []
      rw [IH.2.1 ys ind₂ ind rest hsy.2 hfy.2]
  · intro fs ind₂ ind rest hsafe hfuel
    cases fs with
    | nil =>
      rw [show objTailChars ind₂ [] ++ '\n' :: (indentChars ind ++ '\x7d' :: rest) =
        '\n' :: (indentChars ind ++ '\x7d' :: rest) from by simp [objTailChars]]
      simp only [parseObjTail]
      rw [skipWs_cons_ws _ _ (by decide), skipWs_indent,
        skipWs_eq_of_head _ (by intro c hc; cases hc; decide)]
      simp only []
      rw [if_neg (by decide), if_pos (by decide)]
    | cons g gs =>
      obtain ⟨k, v⟩ := g
      have hsg : jSafe v = true ∧ jSafeO gs = true := by
        simpa [jSafeO, Bool.and_eq_true] using hsafe
      have hfg : fuelVal v + 1 ≤ f' ∧ fuelTailO gs ≤ f' := by
        simp only [fuelTailO] at hfuel
        omega
      have hd : objTailChars ind₂ ((k, v) :: gs) ++ '\n' :: (indentChars ind ++ '\x7d' :: rest) =
          ',' :: ('\n' :: (indentChars ind₂ ++ (jstrChars k ++ ':' :: ' ' ::
            (dumpsVal ind₂ v ++ (objTailChars ind₂ gs ++ '\n' ::
              (indentChars ind ++ '\x7d' :: rest)))))) := by
        rw [show objTailChars ind₂ ((k, v) :: gs) = ',' :: '\n' :: dumpsFields ind₂ (k, v) gs
          from rfl, dumpsFields_eq]
        simp
      rw [hd]
      simp only [parseObjTail]
      rw [skipWs_eq_of_head _ (by intro c hc; cases hc; decide)]
      simp only []
      rw [if_pos (by decide)]
      rw [parseMember_ws f' _ (jstrChars k ++ ':' :: ' ' :: (dumpsVal ind₂ v ++
        (objTailChars ind₂ gs ++ '\n' :: (indentChars ind ++ '\x7d' :: rest))))
        (by rw [skipWs_cons_ws _ _ (by decide), skipWs_indent])]
      rw [IH.2.2.2 k v ind₂ _ hsg.1 hfg.1 (numBoundary_objTail _ _ _)]
      simp only []
      rw [IH.2.2.1 gs ind₂ ind rest hsg.2 hfg.2]
  · intro k v ind₂ rest hv hfv hb
    rw [show jstrChars k ++ ':' :: ' ' :: (dumpsVal ind₂ v ++ rest) =
      '"' :: (k.toList.flatMap escChar ++ ('"' :: (':' :: ' ' :: (dumpsVal ind₂ v ++ rest))))
      from by simp [jstrChars]]
    simp only [parseMember]
    rw [skipWs_eq_of_head _ (by intro c hc; cases hc; decide)]
    simp only []
    rw [if_pos (by decide)]
    rw [parseStrBody_jstrChars k _]
    simp only []
    rw [skipWs_eq_of_head (':' :: ' ' :: (dumpsVal ind₂ v ++ rest))
      (by intro c hc; cases hc; decide)]
    simp only []
    rw [if_pos (by decide)]
    rw [parseVal_ws f' (' ' :: (dumpsVal ind₂ v ++ rest)) (dumpsVal ind₂ v ++ rest)
      (by rw [skipWs_cons_ws _ _ (by decide), skipWs_dumpsVal])]
    rw [IH.1 v ind₂ rest hv (by omega) hb]

end MCP

namespace MCP

theorem fuel_le : ∀ n : ℕ,
    (∀ v : JVal, sizeOf v ≤ n → ∀ ind, fuelVal v ≤ (dumpsVal ind v).length) ∧
    (∀ xs : List JVal, sizeOf xs ≤ n → ∀ ind,
      fuelTailA xs ≤ (arrTailChars ind xs).length + 1) ∧
    (∀ fs : List (String × JVal), sizeOf fs ≤ n → ∀ ind,
      fuelTailO fs ≤ (objTailChars ind fs).length + 1) := by
  intro n
  induction n using Nat.strong_induction_on with
  | _ n ih =>
  refine ⟨?_, ?_, ?_⟩
  · intro v hs ind
    cases v with
    | jarr xs =>
      cases xs with
      | nil => simp [fuelVal, dumpsVal]
      | cons x xs =>
        have hx : fuelVal x ≤ (dumpsVal (ind + 2) x).length :=
          (ih (sizeOf x) (by simp at hs; omega)).1 x le_rfl (ind + 2)
        have hxs : fuelTailA xs ≤ (arrTailChars (ind + 2) xs).length + 1 :=
          (ih (sizeOf xs) (by simp at hs; omega)).2.1 xs le_rfl (ind + 2)
        have hshape : dumpsVal ind (.jarr (x :: xs)) =
            '[' :: ('\n' :: (indentChars (ind + 2) ++ (dumpsVal (ind + 2) x ++
              (arrTailChars (ind + 2) xs ++ '\n' :: (indentChars ind ++ [']']))))) := by
          simp [dumpsVal, dumpsItems_eq]
        rw [show fuelVal (.jarr (x :: xs)) = 1 + max (fuelVal x) (fuelTailA xs) from by
          simp [fuelVal], hshape]
        simp only [List.length_cons, List.length_append, List.length_nil]
        omega
    | jobj fs =>
      cases fs with
      | nil => simp [fuelVal, dumpsVal]
      | cons g gs =>
        obtain ⟨k, v⟩ := g
        have hv : fuelVal v ≤ (dumpsVal (ind + 2) v).length :=
          (ih (sizeOf v) (by simp at hs; omega)).1 v le_rfl (ind + 2)
        have hgs : fuelTailO gs ≤ (objTailChars (ind + 2) gs).length + 1 :=
          (ih (sizeOf gs) (by simp at hs; omega)).2.2 gs le_rfl (ind + 2)
        have hshape : dumpsVal ind (.jobj ((k, v) :: gs)) =
            '\x7b' :: ('\n' :: (indentChars (ind + 2) ++ (jstrChars k ++ ':' :: ' ' ::
              (dumpsVal (ind + 2) v ++ (objTailChars (ind + 2) gs ++ '\n' ::
                (indentChars ind ++ ['\x7d'])))))) := by
          simp [dumpsVal, dumpsFields_eq]
        rw [show fuelVal (.jobj ((k, v) :: gs)) = 1 + max (fuelVal v + 1) (fuelTailO gs) from by
          simp [fuelVal], hshape]
        simp only [List.length_cons, List.length_append, List.length_nil]
        omega
    | jnull =>
      obtain ⟨c, t, hct, _⟩ := dumpsVal_head ind .jnull
      rw [hct]
      simp [fuelVal]
    | jbool b =>
      obtain ⟨c, t, hct, _⟩ := dumpsVal_head ind (.jbool b)
      rw [hct]
      simp [fuelVal]
    | jint m =>
      obtain ⟨c, t, hct, _⟩ := dumpsVal_head ind (.jint m)
      rw [hct]
      simp [fuelVal]
    | jfloat q =>
      obtain ⟨c, t, hct, _⟩ := dumpsVal_head ind (.jfloat q)
      rw [hct]
      simp [fuelVal]
    | jstr str =>
      obtain ⟨c, t, hct, _⟩ := dumpsVal_head ind (.jstr str)
      rw [hct]
      simp [fuelVal]
  · intro xs hs ind
    cases xs with
    | nil => simp [fuelTailA, arrTailChars]
    | cons y ys =>
      have hy : fuelVal y ≤ (dumpsVal ind y).length :=
        (ih (sizeOf y) (by simp at hs; omega)).1 y le_rfl ind
      have hys : fuelTailA ys ≤ (arrTailChars ind ys).length + 1 :=
        (ih (sizeOf ys) (by simp at hs; omega)).2.1 ys le_rfl ind
      have hshape : arrTailChars ind (y :: ys) =
          ',' :: ('\n' :: (indentChars ind ++ (dumpsVal ind y ++ arrTailChars ind ys))) := by
        rw [show arrTailChars ind (y :: ys) = ',' :: '\n' :: dumpsItems ind y ys from rfl,
          dumpsItems_eq]
        simp
      rw [show fuelTailA (y :: ys) = 1 + max (fuelVal y) (fuelTailA ys) from by
        simp [fuelTailA], hshape]
      simp only [List.length_cons, List.length_append]
      omega
  · intro fs hs ind
    cases fs with
    | nil => simp [fuelTailO, objTailChars]
    | cons g gs =>
      obtain ⟨k, v⟩ := g
      have hv : fuelVal v ≤ (dumpsVal ind v).length :=
        (ih (sizeOf v) (by simp at hs; omega)).1 v le_rfl ind
      have hgs : fuelTailO gs ≤ (objTailChars ind gs).length + 1 :=
        (ih (sizeOf gs) (by simp at hs; omega)).2.2 gs le_rfl ind
      have hshape : objTailChars ind ((k, v) :: gs) =
          ',' :: ('\n' :: (indentChars ind ++ (jstrChars k ++ ':' :: ' ' ::
            (dumpsVal ind v ++ objTailChars ind gs)))) := by
        rw [show objTailChars ind ((k, v) :: gs) = ',' :: '\n' :: dumpsFields ind (k, v) gs
          from rfl, dumpsFields_eq]
        simp
      rw [show fuelTailO ((k, v) :: gs) = 1 + max (fuelVal v + 1) (fuelTailO gs) from by
        simp [fuelTailO], hshape]
      simp only [List.length_cons, List.length_append]
      omega

theorem jsonLoads_dumps (v : JVal) (h : jSafe v = true) :
    jsonLoads (jsonDumps v) = some v := by
  have hfuel : fuelVal v ≤ (dumpsVal 0 v).length :=
    (fuel_le (sizeOf v)).1 v le_rfl 0
  have hparse : parseVal ((dumpsVal 0 v).length + 1) (dumpsVal 0 v ++ []) = some (v, []) :=
    (parse_dumps ((dumpsVal 0 v).length + 1)).1 v 0 [] h (by omega) numBoundary_nil
  rw [List.append_nil] at hparse
  show (match parseVal ((dumpsVal 0 v).length + 1) (dumpsVal 0 v) with
    | some (w, rest) => if (skipWs rest).isEmpty then some w else none
    | none => none) = some v
  rw [hparse]
  rfl

end MCP

namespace MCP

theorem argsDecimal_get (arguments : Args) (k : String) (v : JVal)
    (ha : argsDecimal arguments = true) (h : Args.get? arguments k = some v) :
    decimalVal v = true := by
  induction arguments with
  | nil => cases h
  | cons p rest ih =>
    obtain ⟨k', v'⟩ := p
    simp only [Args.get?] at h
    simp only [argsDecimal, List.all_cons, Bool.and_eq_true] at ha
    by_cases he : k' = k
    · rw [if_pos he] at h
      cases h
      exact ha.1
    · rw [if_neg he] at h
      exact ih ha.2 h

theorem exceptMap_ok {ε α β : Type} (f : α → β) (m : Except ε α) (b : β)
    (h : Except.map f m = .ok b) : ∃ a, m = .ok a ∧ b = f a := by
  cases m with
  | error e => exact Except.noConfusion h
  | ok a =>
    refine ⟨a, rfl, ?_⟩
    cases h
    rfl

theorem den_div_pow10 (b k : ℕ) : ((b : ℚ) / 10 ^ k).den ∣ 10 ^ k := by
  have h : ((b : ℚ) / 10 ^ k) = Rat.divInt (b : ℤ) ((10 ^ k : ℕ) : ℤ) := by
    rw [Rat.divInt_eq_div]
    push_cast
    ring
  rw [h]
  have hd := Rat.den_dvd (b : ℤ) ((10 ^ k : ℕ) : ℤ)
  exact_mod_cast hd

theorem decimalDen_neg_sum (v : ℚ) (neg : Bool)
    (hv : ∃ a b k : ℕ, v = (a : ℚ) + (b : ℚ) / 10 ^ k) :
    decimalDen (if neg then -v else v).den = true := by
  obtain ⟨a, b, k, rfl⟩ := hv
  have h1 : decimalDen ((a : ℚ)).den = true := by
    rw [Rat.den_natCast]
    exact decimalDen_one
  have h2 : decimalDen (((b : ℚ) / 10 ^ k)).den = true :=
    decimalDen_of_dvd_pow10 _ k (Rat.pos _) (den_div_pow10 b k)
  have h3 := decimalDen_rat_add _ _ h1 h2
  cases neg
  · rw [if_neg (by decide)]
    exact h3
  · rw [if_pos rfl, Rat.neg_den]
    exact h3

theorem natCast_shape (a : ℕ) : ∃ x y k : ℕ, (a : ℚ) = (x : ℚ) + (y : ℚ) / 10 ^ k :=
  ⟨a, 0, 0, by simp⟩

theorem pyFloatOfStr_decimal (str : String) (q : ℚ) (h : pyFloatOfStr str = .ok q) :
    decimalDen q.den = true := by
  unfold pyFloatOfStr at h
  simp only [] at h
  obtain ⟨v, hmag, rfl⟩ := exceptMap_ok _ _ _ h
  apply decimalDen_neg_sum
  split at hmag
  · split at hmag
    · exact Except.noConfusion hmag
    · cases hmag
      exact ⟨_, _, _, rfl⟩
  · split at hmag
    · exact Except.noConfusion hmag
    · cases hmag
      exact natCast_shape _

theorem pyFloat_decimal (v : JVal) (q : ℚ) (hv : decimalVal v = true)
    (h : pyFloat v = .ok q) : decimalDen q.den = true := by
  cases v with
  | jint n =>
    cases h
    rw [Rat.den_intCast]
    exact decimalDen_one
  | jfloat r =>
    cases h
    exact hv
  | jbool b =>
    cases b <;> cases h
    · rw [if_neg (by decide), show (0 : ℚ).den = 1 from rfl]
      exact decimalDen_one
    · rw [if_pos rfl, show (1 : ℚ).den = 1 from rfl]
      exact decimalDen_one
  | jstr t => exact pyFloatOfStr_decimal t q h
  | jnull => exact Except.noConfusion h
  | jarr xs => exact Except.noConfusion h
  | jobj fs => exact Except.noConfusion h

/-! ### Safety of the serialized math result -/

theorem safeChar_digit (c : Char) (h : c.isDigit = true) : safeChar c = true := by
  have hb := isDigit_toNat c h
  simp only [safeChar, Bool.and_eq_true, decide_eq_true_eq]
  refine ⟨⟨⟨by omega, by omega⟩, ?_⟩, ?_⟩
  · intro he
    subst he
    exact absurd hb (by decide)
  · intro he
    subst he
    exact absurd hb (by decide)

theorem decBody_chars (m k : ℕ) : ∀ c ∈ decBody m k, c.isDigit = true ∨ c = '.' := by
  intro c hc
  unfold decBody at hc
  by_cases hk : k = 0
  · rw [if_pos hk] at hc
    rcases List.mem_append.mp hc with hc | hc
    · exact Or.inl (natDigits_all_digits m c hc)
    · rcases List.mem_cons.mp hc with hc | hc
      · exact Or.inr hc
      · rw [List.mem_singleton] at hc
        subst hc
        exact Or.inl (by decide)
  · rw [if_neg hk] at hc
    unfold withPoint at hc
    have hmem : ∀ d, d ∈ padZeros (natDigits m) (k + 1) → d.isDigit = true := by
      intro d hd
      unfold padZeros at hd
      rcases List.mem_append.mp hd with hd | hd
      · rw [List.eq_of_mem_replicate hd]
        decide
      · exact natDigits_all_digits m d hd
    rcases List.mem_append.mp hc with hc | hc
    · exact Or.inl (hmem c (List.mem_of_mem_take hc))
    · rcases List.mem_cons.mp hc with hc | hc
      · exact Or.inr hc
      · exact Or.inl (hmem c (List.mem_of_mem_drop hc))

theorem safeStr_mk (l : List Char) (h : ∀ c ∈ l, safeChar c = true) :
    safeStr (String.mk l) = true := by
  show l.all safeChar = true
  rw [List.all_eq_true]
  exact h

theorem safeStr_pyRepr (q : ℚ) : safeStr (pyRepr q) = true := by
  apply safeStr_mk
  intro c hc
  rcases List.mem_append.mp hc with hc | hc
  · by_cases hn : q.num < 0
    · rw [if_pos hn] at hc
      rcases List.mem_cons.mp hc with hc | hc
      · subst hc
        decide
      · exact absurd hc (List.not_mem_nil c)
    · rw [if_neg hn] at hc
      exact absurd hc (List.not_mem_nil c)
  · rcases decBody_chars _ _ c hc with h | h
    · exact safeChar_digit c h
    · subst h
      decide

theorem toList_append (s t : String) : (s ++ t).toList = s.toList ++ t.toList := by
  cases s
  cases t
  rfl

theorem safeStr_append (s t : String) (hs : safeStr s = true) (ht : safeStr t = true) :
    safeStr (s ++ t) = true := by
  simp only [safeStr, toList_append, List.all_append, Bool.and_eq_true]
  exact ⟨hs, ht⟩

end MCP

namespace MCP

theorem jSafeA_map_jstr (l : List String) : jSafeA (l.map JVal.jstr) = true := by
  induction l with
  | nil => simp [jSafeA]
  | cons x xs ih => simp [jSafeA, jSafe, ih]

theorem optStrJ_jSafe (o : Option String) : jSafe (optStrJ o) = true := by
  cases o <;> simp [optStrJ, jSafe]

theorem instance_jSafe (i : Instance) : jSafe i.model_dump = true := by
  simp [Instance.model_dump, jSafe, jSafeO, jSafeA_map_jstr, optStrJ_jSafe]

theorem jSafeA_map_instance (l : List Instance) :
    jSafeA (l.map Instance.model_dump) = true := by
  induction l with
  | nil => simp [jSafeA]
  | cons i l ih => simp [jSafeA, instance_jSafe, ih]

theorem scwValue_jSafe (v : ScwValue) : jSafe v.model_dump = true := by
  cases v with
  | listResp r =>
    simp [ScwValue.model_dump, ListInstancesResponse.model_dump, jSafe, jSafeO,
      jSafeA_map_instance]
  | detailResp r =>
    simp [ScwValue.model_dump, InstanceDetailResponse.model_dump, jSafe, jSafeO,
      instance_jSafe]
  | actionResp r =>
    simp [ScwValue.model_dump, ActionResponse.model_dump, Task.model_dump, jSafe, jSafeO,
      optStrJ_jSafe]

theorem mathAdd_jSafe (qa qb : ℚ) (hqa : decimalDen qa.den = true)
    (hqb : decimalDen qb.den = true) :
    jSafe (MathServer.add qa qb).model_dump = true := by
  have hsum := decimalDen_rat_add qa qb hqa hqb
  simp [MathServer.add, MathResult.model_dump, jSafe, jSafeO, hsum]

theorem mathSub_jSafe (qa qb : ℚ) (hqa : decimalDen qa.den = true)
    (hqb : decimalDen qb.den = true) :
    jSafe (MathServer.subtract qa qb).model_dump = true := by
  have hsum := decimalDen_rat_sub qa qb hqa hqb
  simp [MathServer.subtract, MathResult.model_dump, jSafe, jSafeO, hsum]

theorem mathDispatch_jSafe (name : String) (arguments : Args) (r : MathResult)
    (ha : argsDecimal arguments = true)
    (h : mathDispatch name arguments = .ok r) :
    jSafe r.model_dump = true := by
  have hcoerce : ∀ (k : String) (q : ℚ),
      pyFloat ((Args.get? arguments k).getD .jnull) = .ok q →
      decimalDen q.den = true := by
    intro k q hq
    cases hv : Args.get? arguments k with
    | none =>
      rw [hv] at hq
      exact Except.noConfusion hq
    | some v =>
      rw [hv] at hq
      exact pyFloat_decimal v q (argsDecimal_get arguments k v ha hv) hq
  unfold mathDispatch at h
  split at h
  · split at h
    · exact Except.noConfusion h
    · cases hqa : pyFloat ((Args.get? arguments "a").getD .jnull) with
      | error e =>
        rw [hqa] at h
        exact Except.noConfusion h
      | ok qa =>
        rw [hqa] at h
        cases hqb : pyFloat ((Args.get? arguments "b").getD .jnull) with
        | error e =>
          rw [hqb] at h
          exact Except.noConfusion h
        | ok qb =>
          rw [hqb] at h
          cases h
          exact mathAdd_jSafe qa qb (hcoerce "a" qa hqa) (hcoerce "b" qb hqb)
  · split at h
    · split at h
      · exact Except.noConfusion h
      · cases hqa : pyFloat ((Args.get? arguments "a").getD .jnull) with
        | error e =>
          rw [hqa] at h
          exact Except.noConfusion h
        | ok qa =>
          rw [hqa] at h
          cases hqb : pyFloat ((Args.get? arguments "b").getD .jnull) with
          | error e =>
            rw [hqb] at h
            exact Except.noConfusion h
          | ok qb =>
            rw [hqb] at h
            cases h
            exact mathSub_jSafe qa qb (hcoerce "a" qa hqa) (hcoerce "b" qb hqb)
    · exact Except.noConfusion h

/-- C7: every successful dispatch yields exactly one text content part whose
text is the JSON serialization of the handler's structured result, and
parsing that text back with `json.loads` reproduces the structured value
exactly. For the Scaleway server this is unconditional — response strings
that need JSON escaping (quotes, backslashes, control characters,
non-ASCII up to and including astral code points) round-trip through the
escape sequences `json.dumps` emits. For the math server it holds whenever
the argument floats are finite decimals, which every CPython float is. -/
theorem roundTrip_single_text :
    (∀ name arguments parts, argsDecimal arguments = true →
      mathCallTool name arguments = .ok parts →
      ∃ r, mathDispatch name arguments = .ok r ∧
        parts = [⟨"text", jsonDumps r.model_dump⟩] ∧
        jsonLoads (jsonDumps r.model_dump) = some r.model_dump) ∧
    (∀ s http name arguments parts,
      scwCallTool s http name arguments = .ok parts →
      ∃ r, scwDispatch s http name arguments = .ok r ∧
        parts = [⟨"text", jsonDumps r.model_dump⟩] ∧
        jsonLoads (jsonDumps r.model_dump) = some r.model_dump) := by
  constructor
  · intro name arguments parts ha hcall
    unfold mathCallTool at hcall
    cases hd : mathDispatch name arguments with
    | error e =>
      rw [hd] at hcall
      exact Except.noConfusion hcall
    | ok r =>
      rw [hd] at hcall
      cases hcall
      exact ⟨r, rfl, rfl, jsonLoads_dumps _ (mathDispatch_jSafe name arguments r ha hd)⟩
  · intro s http name arguments parts hcall
    unfold scwCallTool at hcall
    cases hd : scwDispatch s http name arguments with
    | error e =>
      cases e <;> (rw [hd] at hcall; exact Except.noConfusion hcall)
    | ok r =>
      rw [hd] at hcall
      cases hcall
      exact ⟨r, rfl, rfl, jsonLoads_dumps _ (scwValue_jSafe r)⟩

theorem roundTrip_single_text_w :
    (∃ r, mathDispatch MathTools.ADD [("a", JVal.jint 3), ("b", JVal.jint 5)] = .ok r ∧
      [(⟨"text", jsonDumps (MathServer.add ((3 : ℤ) : ℚ) ((5 : ℤ) : ℚ)).model_dump⟩ :
        TextContent)] = [⟨"text", jsonDumps r.model_dump⟩] ∧
      jsonLoads (jsonDumps r.model_dump) = some r.model_dump) ∧
    (∃ r, scwDispatch ⟨"tok"⟩
        (fun _ => .ok (JVal.jobj [("servers", JVal.jarr [JVal.jobj
          [("id", JVal.jstr "i-1"), ("name", JVal.jstr "web \"alpha\"\n"),
           ("state", JVal.jstr "running"), ("commercial_type", JVal.jstr "DEV1-S"),
           ("zone", JVal.jstr "fr-par-1")]])]))
        ScalewayTools.LIST_INSTANCES [("zone", JVal.jstr "fr-par-1")] = .ok r ∧
      [(⟨"text", jsonDumps (ScwValue.listResp
          ⟨[⟨"i-1", "web \"alpha\"\n", "running", "DEV1-S", none, "fr-par-1", []⟩],
           1⟩).model_dump⟩ : TextContent)] = [⟨"text", jsonDumps r.model_dump⟩] ∧
      jsonLoads (jsonDumps r.model_dump) = some r.model_dump) :=
  ⟨roundTrip_single_text.1 MathTools.ADD [("a", .jint 3), ("b", .jint 5)]
    [⟨"text", jsonDumps (MathServer.add ((3 : ℤ) : ℚ) ((5 : ℤ) : ℚ)).model_dump⟩]
    (by rfl) (by rfl),
   roundTrip_single_text.2 ⟨"tok"⟩
    (fun _ => .ok (JVal.jobj [("servers", JVal.jarr [JVal.jobj
      [("id", JVal.jstr "i-1"), ("name", JVal.jstr "web \"alpha\"\n"),
       ("state", JVal.jstr "running"), ("commercial_type", JVal.jstr "DEV1-S"),
       ("zone", JVal.jstr "fr-par-1")]])]))
    ScalewayTools.LIST_INSTANCES [("zone", JVal.jstr "fr-par-1")]
    [⟨"text", jsonDumps (ScwValue.listResp
      ⟨[⟨"i-1", "web \"alpha\"\n", "running", "DEV1-S", none, "fr-par-1", []⟩],
       1⟩).model_dump⟩]
    (by rfl)⟩

/-- C5 counterexample: the Scaleway handlers receive the raw argument values
unmodified. Dispatching `list_instances` with the non-numeric string
"not-a-number" as `per_page` (an integer-typed field of the declared schema)
invokes the handler, which forwards that exact string to the HTTP boundary —
no validation failure and no normalization to a floating representation
happens before the handler runs. -/
theorem scw_no_coercion_cex :
    scwCallTool ⟨"tok"⟩ reflectParams ScalewayTools.LIST_INSTANCES
      [("zone", .jstr "fr-par-1"), ("per_page", .jstr "not-a-number"),
       ("page", .jstr "2"), ("state", .jstr "running")] =
      .error "API request error: per_page=not-a-number;page=2;state=running;" := by
  rfl

/-- C5 (corrected): coercion is per-server, not universal. The math server
coerces both arguments of both its tools with `float()` before invoking the
handler and aborts on coercion failure; the Scaleway server invokes each of
its three handlers on the raw argument values (with defaults filled in),
performing no type validation or numeric normalization beyond the
required-key checks. -/
theorem argument_coercion_boundary :
    (∀ arguments a b, Args.get? arguments "a" = some a →
        Args.get? arguments "b" = some b →
      (mathDispatch MathTools.ADD arguments = do
        let qa ← pyFloat a
        let qb ← pyFloat b
        .ok (MathServer.add qa qb)) ∧
      (mathDispatch MathTools.SUBTRACT arguments = do
        let qa ← pyFloat a
        let qb ← pyFloat b
        .ok (MathServer.subtract qa qb))) ∧
    (∀ s http arguments z, Args.get? arguments "zone" = some z →
      scwDispatch s http ScalewayTools.LIST_INSTANCES arguments =
        ScwValue.listResp <$> s.list_instances http z
          ((Args.get? arguments "per_page").getD (.jint 50))
          ((Args.get? arguments "page").getD (.jint 1))
          ((Args.get? arguments "project").getD .jnull)
          ((Args.get? arguments "state").getD (.jstr "running"))) ∧
    (∀ s http arguments z sid, Args.get? arguments "zone" = some z →
        Args.get? arguments "server_id" = some sid →
      scwDispatch s http ScalewayTools.GET_INSTANCE arguments =
        ScwValue.detailResp <$> s.get_instance http z sid) ∧
    (∀ s http arguments z sid act, Args.get? arguments "zone" = some z →
        Args.get? arguments "server_id" = some sid →
        Args.get? arguments "action" = some act →
      scwDispatch s http ScalewayTools.PERFORM_ACTION arguments =
        ScwValue.actionResp <$> s.perform_action http z sid act
          ((Args.get? arguments "name").getD .jnull)
          ((Args.get? arguments "volumes").getD .jnull)
          ((Args.get? arguments "disable_ipv6").getD .jnull)) := by
  refine ⟨?_, ?_, ?_, ?_⟩
  · intro arguments a b hga hgb
    constructor
    · unfold mathDispatch
      rw [if_pos rfl]
      rw [if_neg (by simp [hga, hgb])]
      rw [hga, hgb]
      rfl
    · unfold mathDispatch
      rw [if_neg (by decide), if_pos rfl]
      rw [if_neg (by simp [hga, hgb])]
      rw [hga, hgb]
      rfl
  · intro s http arguments z hz
    unfold scwDispatch
    rw [if_pos rfl]
    rw [if_neg (by simp [hz])]
    rw [hz]
    rfl
  · intro s http arguments z sid hz hsid
    unfold scwDispatch
    rw [if_neg (by decide), if_pos rfl]
    rw [if_neg (by simp [hz, hsid])]
    rw [hz, hsid]
    rfl
  · intro s http arguments z sid act hz hsid hact
    unfold scwDispatch
    rw [if_neg (by decide), if_neg (by decide), if_pos rfl]
    rw [if_neg (by simp [hz, hsid, hact])]
    rw [hz, hsid, hact]
    rfl

theorem argument_coercion_boundary_w :
    (mathDispatch MathTools.ADD [("a", JVal.jint 3), ("b", JVal.jint 5)] =
      (do
        let qa ← pyFloat (.jint 3)
        let qb ← pyFloat (.jint 5)
        .ok (MathServer.add qa qb)) ∧
     mathDispatch MathTools.SUBTRACT [("a", JVal.jint 3), ("b", JVal.jint 5)] =
      (do
        let qa ← pyFloat (.jint 3)
        let qb ← pyFloat (.jint 5)
        .ok (MathServer.subtract qa qb))) ∧
    scwDispatch ⟨"tok"⟩ (fun _ => .ok .jnull) ScalewayTools.GET_INSTANCE
        [("zone", JVal.jstr "fr-par-1"), ("server_id", JVal.jstr "i-1")] =
      ScwValue.detailResp <$> ScalewayServer.get_instance ⟨"tok"⟩ (fun _ => .ok .jnull)
        (.jstr "fr-par-1") (.jstr "i-1") ∧
    scwDispatch ⟨"tok"⟩ (fun _ => .ok .jnull) ScalewayTools.PERFORM_ACTION
        [("zone", JVal.jstr "fr-par-1"), ("server_id", JVal.jstr "i-1"),
         ("action", JVal.jstr "poweron")] =
      ScwValue.actionResp <$> ScalewayServer.perform_action ⟨"tok"⟩ (fun _ => .ok .jnull)
        (.jstr "fr-par-1") (.jstr "i-1") (.jstr "poweron") .jnull .jnull .jnull :=
  ⟨argument_coercion_boundary.1 [("a", .jint 3), ("b", .jint 5)] (.jint 3) (.jint 5) rfl rfl,
   argument_coercion_boundary.2.2.1 ⟨"tok"⟩ (fun _ => .ok .jnull)
     [("zone", .jstr "fr-par-1"), ("server_id", .jstr "i-1")]
     (.jstr "fr-par-1") (.jstr "i-1") rfl rfl,
   argument_coercion_boundary.2.2.2 ⟨"tok"⟩ (fun _ => .ok .jnull)
     [("zone", .jstr "fr-par-1"), ("server_id", .jstr "i-1"), ("action", .jstr "poweron")]
     (.jstr "fr-par-1") (.jstr "i-1") (.jstr "poweron") rfl rfl rfl⟩

end MCP
